import Mathlib

set_option maxHeartbeats 1000000

/-!
Verification development for the storyteller content-generation pipeline.

The Python sources are shallowly embedded as executable Lean definitions:
strings are `String`/`List Char`, mutation is explicit state passing,
`raise` becomes `Except`/`Option`, and the LLM collaborator is an oracle
parameter.  Python string primitives (`str.strip`, `str.find`, `str.split`,
`str.join`) are modelled over `List Char`; the model covers the ASCII
whitespace characters Python treats as whitespace (the sources only ever
strip ASCII content).
-/

/-- Model of the whitespace test used by Python `str.strip()` /
`str.split()` blank checks (ASCII subset). -/
def isWS (c : Char) : Bool :=
  c = ' ' || c = '\t' || c = '\n' || c = '\r' || c = '\x0b' || c = '\x0c'

/-- Model of Python `s.strip()` on the character list. -/
def pyStrip (l : List Char) : List Char :=
  ((l.dropWhile isWS).reverse.dropWhile isWS).reverse

/-- Model of Python `s.find(pat)`: index of the first occurrence of `pat`
in `s`, `none` when absent (Python returns `-1`). -/
def findSub (pat : List Char) : List Char → Option Nat
  | [] => if pat.isEmpty then some 0 else none
  | c :: rest =>
    if pat.isPrefixOf (c :: rest) then some 0
    else (findSub pat rest).map (· + 1)

/-- Model of Python `s.split("\n")`. -/
def splitNl : List Char → List (List Char)
  | [] => [[]]
  | c :: rest =>
    if c = '\n' then [] :: splitNl rest
    else
      match splitNl rest with
      | [] => [[c]]
      | l :: ls => (c :: l) :: ls

/-- Model of Python `"\n".join(pieces)`. -/
def joinNl : List (List Char) → List Char
  | [] => []
  | [l] => l
  | l :: l' :: ls => l ++ '\n' :: joinNl (l' :: ls)

theorem splitNl_ne_nil (s : List Char) : splitNl s ≠ [] := by
  cases s with
  | nil => simp [splitNl]
  | cons c rest =>
    simp only [splitNl]
    split
    · simp
    · split <;> simp

theorem joinNl_splitNl (s : List Char) : joinNl (splitNl s) = s := by
  induction s with
  | nil => simp [splitNl, joinNl]
  | cons c rest ih =>
    simp only [splitNl]
    split
    · rename_i hc
      obtain ⟨l, ls, hE⟩ : ∃ l ls, splitNl rest = l :: ls := by
        cases h : splitNl rest with
        | nil => exact absurd h (splitNl_ne_nil rest)
        | cons l ls => exact ⟨l, ls, rfl⟩
      rw [hE] at ih ⊢
      subst hc
      simpa [joinNl] using ih
    · cases h : splitNl rest with
      | nil => exact absurd h (splitNl_ne_nil rest)
      | cons l ls =>
        rw [h] at ih
        cases ls with
        | nil => simpa [joinNl] using ih
        | cons l' ls' => simpa [joinNl] using congrArg (c :: ·) ih

theorem splitNl_of_not_mem {l : List Char} (hl : '\n' ∉ l) :
    splitNl l = [l] := by
  induction l with
  | nil => simp [splitNl]
  | cons c cs ih =>
    have hc : c ≠ '\n' := fun hcc => hl (hcc ▸ List.mem_cons_self c cs)
    have hcs : '\n' ∉ cs := fun hm => hl (List.mem_cons_of_mem c hm)
    rw [splitNl, if_neg (fun hcc => hc hcc), ih hcs]

theorem splitNl_append_nl {l : List Char} (rest : List Char)
    (hl : '\n' ∉ l) : splitNl (l ++ '\n' :: rest) = l :: splitNl rest := by
  induction l with
  | nil =>
    simp only [List.nil_append]
    rw [splitNl, if_pos rfl]
  | cons c cs ih =>
    have hc : c ≠ '\n' := fun hcc => hl (hcc ▸ List.mem_cons_self c cs)
    have hcs : '\n' ∉ cs := fun hm => hl (List.mem_cons_of_mem c hm)
    rw [List.cons_append, splitNl, if_neg (fun hcc => hc hcc), ih hcs]

theorem mem_splitNl_not_nl {s : List Char} {l : List Char}
    (h : l ∈ splitNl s) : '\n' ∉ l := by
  induction s generalizing l with
  | nil =>
    simp [splitNl] at h
    simp [h]
  | cons c rest ih =>
    by_cases hc : c = '\n'
    · rw [splitNl, if_pos hc] at h
      rcases List.mem_cons.mp h with h | h
      · simp [h]
      · exact ih h
    · obtain ⟨p, ps, hE⟩ : ∃ p ps, splitNl rest = p :: ps := by
        cases hsp : splitNl rest with
        | nil => exact absurd hsp (splitNl_ne_nil rest)
        | cons p ps => exact ⟨p, ps, rfl⟩
      rw [splitNl, if_neg (fun hcc => hc hcc), hE] at h
      rcases List.mem_cons.mp h with h | h
      · subst h
        intro hmem
        rcases List.mem_cons.mp hmem with hmem | hmem
        · exact hc hmem.symm
        · exact ih (hE ▸ List.mem_cons_self p ps) hmem
      · exact ih (hE ▸ List.mem_cons_of_mem p h)

theorem splitNl_joinNl (L : List (List Char)) (hne : L ≠ [])
    (h : ∀ l ∈ L, '\n' ∉ l) : splitNl (joinNl L) = L := by
  induction L with
  | nil => exact absurd rfl hne
  | cons l ls ih =>
    cases ls with
    | nil =>
      rw [joinNl]
      exact splitNl_of_not_mem (h l (List.mem_cons_self l []))
    | cons l' ls' =>
      have hrest : splitNl (joinNl (l' :: ls')) = l' :: ls' :=
        ih (by simp) (fun x hx => h x (List.mem_cons_of_mem l hx))
      rw [joinNl, splitNl_append_nl _ (h l (List.mem_cons_self l _)), hrest]

theorem findSub_some_prefix {pat s : List Char} {i : Nat}
    (h : findSub pat s = some i) : pat <+: s.drop i := by
  induction s generalizing i with
  | nil =>
    rw [findSub] at h
    split at h
    · rename_i hp
      cases h
      simp_all [List.isEmpty_iff]
    · cases h
  | cons c rest ih =>
    rw [findSub] at h
    split at h
    · rename_i hp
      cases h
      exact List.isPrefixOf_iff_prefix.mp hp
    · rcases Option.map_eq_some'.mp h with ⟨j, hj, hji⟩
      subst hji
      simpa using ih hj

theorem findSub_min {pat s : List Char} {i : Nat}
    (h : findSub pat s = some i) : ∀ j, j < i → ¬ pat <+: s.drop j := by
  induction s generalizing i with
  | nil =>
    rw [findSub] at h
    split at h
    · cases h; omega
    · cases h
  | cons c rest ih =>
    rw [findSub] at h
    split at h
    · cases h; omega
    · rename_i hp
      rcases Option.map_eq_some'.mp h with ⟨k, hk, hki⟩
      subst hki
      intro j hj
      cases j with
      | zero =>
        simpa using fun hpre => hp (List.isPrefixOf_iff_prefix.mpr hpre)
      | succ j' =>
        simpa using ih hk j' (by omega)

theorem findSub_eq_none_iff {pat s : List Char} :
    findSub pat s = none ↔ ∀ j, ¬ pat <+: s.drop j := by
  induction s with
  | nil =>
    rw [findSub]
    split
    · rename_i hp
      simp only [List.isEmpty_iff] at hp
      subst hp
      simp
    · rename_i hp
      simp only [List.isEmpty_iff] at hp
      constructor
      · intro _ j
        simpa using fun hpre => hp (List.prefix_nil.mp (by simpa using hpre))
      · intro _; rfl
  | cons c rest ih =>
    rw [findSub]
    split
    · rename_i hp
      constructor
      · intro h; cases h
      · intro h
        exact absurd (List.isPrefixOf_iff_prefix.mp hp) (by simpa using h 0)
    · rename_i hp
      simp only [Option.map_eq_none']
      rw [ih]
      constructor
      · intro h j
        cases j with
        | zero =>
          simpa using fun hpre => hp (List.isPrefixOf_iff_prefix.mpr hpre)
        | succ j' => simpa using h j'
      · intro h j
        simpa using h (j + 1)

theorem infix_iff_exists_drop {pat s : List Char} :
    pat <:+: s ↔ ∃ j, pat <+: s.drop j := by
  constructor
  · rintro ⟨u, v, huv⟩
    refine ⟨u.length, ?_⟩
    have : s.drop u.length = pat ++ v := by
      rw [← huv, List.append_assoc, List.drop_left]
    exact this ▸ List.prefix_append pat v
  · rintro ⟨j, hj⟩
    exact hj.isInfix.trans (List.drop_suffix j s).isInfix

theorem findSub_none_iff_not_sub {pat s : List Char} :
    findSub pat s = none ↔ ¬ pat <:+: s := by
  rw [findSub_eq_none_iff, infix_iff_exists_drop]
  push_neg
  rfl

theorem findSub_some_add_le {pat s : List Char} {i : Nat}
    (h : findSub pat s = some i) (hp : pat ≠ []) :
    i + pat.length ≤ s.length := by
  have hpre := findSub_some_prefix h
  have hlen := hpre.length_le
  rw [List.length_drop] at hlen
  have hplen : 0 < pat.length := List.length_pos.mpr hp
  omega

theorem prefix_append_cases {α : Type} {p a b : List α} (h : p <+: a ++ b) :
    p <+: a ∨ ∃ q, p = a ++ q ∧ q <+: b := by
  induction a generalizing p with
  | nil => exact Or.inr ⟨p, by simpa using h⟩
  | cons c a' ih =>
    cases p with
    | nil => exact Or.inl (List.nil_prefix)
    | cons d p' =>
      rw [List.cons_append, List.cons_prefix_cons] at h
      obtain ⟨hd, hp'⟩ := h
      subst hd
      rcases ih hp' with h1 | ⟨q, hq1, hq2⟩
      · exact Or.inl (List.cons_prefix_cons.mpr ⟨rfl, h1⟩)
      · exact Or.inr ⟨q, by simp [hq1], hq2⟩

theorem not_prefix_of_head_not_mem {T b : List Char} {c : Char}
    (hT : T ≠ []) (hc : c ∉ T) : ¬ T <+: c :: b := by
  cases T with
  | nil => exact absurd rfl hT
  | cons t ts =>
    intro hpre
    rw [List.cons_prefix_cons] at hpre
    exact hc (hpre.1 ▸ List.mem_cons_self t ts)

theorem findSub_append_nl {T a b : List Char} (hT : T ≠ [])
    (hnl : '\n' ∉ T) :
    findSub T (a ++ '\n' :: b) =
      match findSub T a with
      | some i => some i
      | none => (findSub T b).map (· + (a.length + 1)) := by
  induction a with
  | nil =>
    have hne : ¬ T.isPrefixOf ('\n' :: b) := fun hp =>
      not_prefix_of_head_not_mem hT hnl (List.isPrefixOf_iff_prefix.mp hp)
    have hTne : ¬ T.isEmpty := by simpa [List.isEmpty_iff] using hT
    simp only [List.nil_append, findSub, if_neg hne, if_neg hTne]
    simp
  | cons c a' ih =>
    by_cases hp : T.isPrefixOf (c :: a')
    · have hp2 : T.isPrefixOf (c :: (a' ++ '\n' :: b)) := by
        rw [List.isPrefixOf_iff_prefix] at hp ⊢
        exact hp.trans (by simpa using List.prefix_append (c :: a') ('\n' :: b))
      rw [List.cons_append, findSub, if_pos hp2, findSub, if_pos hp]
    · have hp2 : ¬ T.isPrefixOf (c :: (a' ++ '\n' :: b)) := by
        rw [List.isPrefixOf_iff_prefix]
        intro hpre
        cases T with
        | nil => exact hT rfl
        | cons t ts =>
          rw [List.cons_prefix_cons] at hpre
          obtain ⟨ht, hts⟩ := hpre
          subst ht
          rcases prefix_append_cases hts with h1 | ⟨q, hq1, hq2⟩
          · exact hp (List.isPrefixOf_iff_prefix.mpr
              (List.cons_prefix_cons.mpr ⟨rfl, h1⟩))
          · cases q with
            | nil =>
              rw [List.append_nil] at hq1
              exact hp (List.isPrefixOf_iff_prefix.mpr
                (List.cons_prefix_cons.mpr ⟨rfl, hq1 ▸ List.prefix_refl a'⟩))
            | cons q0 qs =>
              rw [List.cons_prefix_cons] at hq2
              refine hnl ?_
              rw [hq1, hq2.1]
              exact List.mem_cons_of_mem t (by simp)
      rw [List.cons_append, findSub, if_neg hp2, findSub, if_neg hp, ih]
      cases hfa : findSub T a' with
      | some i => simp
      | none =>
        cases hfb : findSub T b with
        | none => simp
        | some j =>
          simp only [Option.map_some', Option.map_none', List.length_cons,
            Option.some.injEq]
          omega

theorem not_infix_slice {pat s : List Char} {e : Nat}
    (h : findSub pat s = some e) (hp : pat ≠ []) (a : Nat) :
    ¬ pat <:+: (s.drop a).take (e - a) := by
  intro hinf
  obtain ⟨j, hj⟩ := infix_iff_exists_drop.mp hinf
  rw [List.drop_take, List.drop_drop] at hj
  have hlen : pat.length ≤ e - a - j := by
    have h1 := hj.length_le
    have h2 : (List.take (e - a - j) (List.drop (a + j) s)).length ≤ e - a - j :=
      List.length_take_le _ _
    omega
  have hplen : 0 < pat.length := List.length_pos.mpr hp
  have hja : a + j < e := by omega
  exact findSub_min h (a + j) hja (hj.trans (List.take_prefix _ _))

theorem pyStrip_sublist (l : List Char) : pyStrip l <:+: l := by
  unfold pyStrip
  have h1 : (l.dropWhile isWS) <:+ l := List.dropWhile_suffix isWS
  have h2 : ((l.dropWhile isWS).reverse.dropWhile isWS) <:+
      (l.dropWhile isWS).reverse := List.dropWhile_suffix isWS
  have h3 : ((l.dropWhile isWS).reverse.dropWhile isWS).reverse <+:
      (l.dropWhile isWS) := by
    have h4 := List.reverse_prefix.mpr h2
    simpa using h4
  exact h3.isInfix.trans h1.isInfix

theorem pyStrip_eq_nil_all_ws {l : List Char} (h : pyStrip l = [])
    (c : Char) (hc : c ∈ l) : isWS c = true := by
  unfold pyStrip at h
  rw [List.reverse_eq_nil_iff, List.dropWhile_eq_nil_iff] at h
  have hdw : ∀ x ∈ l.dropWhile isWS, isWS x = true := by
    intro x hx
    exact h x (by simpa using hx)
  rw [← List.takeWhile_append_dropWhile (p := isWS) (l := l)] at hc
  rcases List.mem_append.mp hc with hc | hc
  · exact List.mem_takeWhile_imp hc
  · exact hdw c hc

theorem findSub_ws_none {T l : List Char} (hT : ∃ c ∈ T, isWS c = false)
    (hl : ∀ c ∈ l, isWS c = true) : findSub T l = none := by
  rw [findSub_none_iff_not_sub]
  intro hinf
  obtain ⟨c, hcT, hcw⟩ := hT
  rw [hl c (hinf.subset hcT)] at hcw
  cases hcw

/-- Position of the first occurrence of `T` in a list of lines, as a
(line index, column) pair. -/
def lineFind (T : List Char) : List (List Char) → Option (Nat × Nat)
  | [] => none
  | l :: ls =>
    match findSub T l with
    | some c => some (0, c)
    | none => (lineFind T ls).map (fun p => (p.1 + 1, p.2))

/-- Lexicographic order on (line, column) pairs. -/
def pairLex (p q : Nat × Nat) : Bool :=
  decide (p.1 < q.1 ∨ (p.1 = q.1 ∧ p.2 < q.2))

/-- Whether the first occurrence of `S` comes strictly before the first
occurrence of `E` in the joined lines. -/
def tagBefore (S E : List Char) (L : List (List Char)) : Bool :=
  match lineFind S L, lineFind E L with
  | some a, some b => pairLex a b
  | _, _ => false

/-- The tag-extraction guard used by the plugins' `extract_content`:
both tags present and the start tag strictly before the end tag. -/
def foundPair (S E : List Char) (s : List Char) : Bool :=
  match findSub S s, findSub E s with
  | some i, some j => decide (i < j)
  | _, _ => false

theorem findSub_lt_length {T l : List Char} {i : Nat} (hT : T ≠ [])
    (h : findSub T l = some i) : i < l.length := by
  have := findSub_some_add_le h hT
  have hplen : 0 < T.length := List.length_pos.mpr hT
  omega

theorem isSome_findSub_joinNl {T : List Char} (hT : T ≠ [])
    (hnl : '\n' ∉ T) (L : List (List Char)) :
    (findSub T (joinNl L)).isSome = (lineFind T L).isSome := by
  induction L with
  | nil =>
    have : findSub T [] = none := by
      rw [findSub, if_neg (by simpa [List.isEmpty_iff] using hT)]
    simp [joinNl, lineFind, this]
  | cons l ls ih =>
    cases ls with
    | nil =>
      rw [joinNl, lineFind]
      cases hf : findSub T l with
      | some c => simp
      | none => simp [lineFind]
    | cons l' ls' =>
      rw [joinNl, findSub_append_nl hT hnl, lineFind]
      cases hf : findSub T l with
      | some c => simp
      | none =>
        simpa only [Option.isSome_map'] using ih

theorem lineFind_eq_none {T : List Char} {L : List (List Char)}
    (h : ∀ l ∈ L, findSub T l = none) : lineFind T L = none := by
  induction L with
  | nil => rfl
  | cons l ls ih =>
    have h1 := h l (List.mem_cons_self l ls)
    have h2 := ih (fun x hx => h x (List.mem_cons_of_mem l hx))
    simp [lineFind, h1, h2]

theorem lineFind_cons (T l : List Char) (ls : List (List Char)) :
    lineFind T (l :: ls) =
      match findSub T l with
      | some c => some (0, c)
      | none => (lineFind T ls).map (fun p => (p.1 + 1, p.2)) := rfl

theorem pairLex_shift (p q : Nat × Nat) :
    pairLex (p.1 + 1, p.2) (q.1 + 1, q.2) = pairLex p q := by
  unfold pairLex
  exact decide_eq_decide.mpr (by omega)

theorem foundPair_joinNl_eq_tagBefore {S E : List Char}
    (hS : S ≠ []) (hE : E ≠ []) (hSnl : '\n' ∉ S) (hEnl : '\n' ∉ E)
    (L : List (List Char)) :
    foundPair S E (joinNl L) = tagBefore S E L := by
  induction L with
  | nil =>
    have h1 : findSub S [] = none := by
      rw [findSub, if_neg (by simpa [List.isEmpty_iff] using hS)]
    simp [joinNl, foundPair, tagBefore, lineFind, h1]
  | cons l ls ih =>
    cases ls with
    | nil =>
      rw [joinNl]
      unfold foundPair tagBefore
      rw [lineFind_cons, lineFind_cons]
      cases hfS : findSub S l <;> cases hfE : findSub E l <;>
        simp [lineFind, pairLex]
    | cons l' ls' =>
      unfold foundPair tagBefore
      rw [joinNl, findSub_append_nl hS hSnl, findSub_append_nl hE hEnl,
        lineFind_cons S l (l' :: ls'), lineFind_cons E l (l' :: ls')]
      have hSsome := isSome_findSub_joinNl hS hSnl (l' :: ls')
      have hEsome := isSome_findSub_joinNl hE hEnl (l' :: ls')
      cases hfS : findSub S l with
      | some i =>
        cases hfE : findSub E l with
        | some j =>
          unfold pairLex
          exact decide_eq_decide.mpr (by omega)
        | none =>
          have hiS := findSub_lt_length hS hfS
          cases hLFE : lineFind E (l' :: ls') with
          | some q =>
            rw [hLFE] at hEsome
            cases hfE2 : findSub E (joinNl (l' :: ls')) with
            | none => rw [hfE2] at hEsome; simp at hEsome
            | some j =>
              simp only [Option.map_some']
              simp [pairLex]
              omega
          | none =>
            rw [hLFE] at hEsome
            cases hfE2 : findSub E (joinNl (l' :: ls')) with
            | some j => rw [hfE2] at hEsome; simp at hEsome
            | none => simp
      | none =>
        cases hfE : findSub E l with
        | some j =>
          have hjE := findSub_lt_length hE hfE
          cases hfS2 : findSub S (joinNl (l' :: ls')) with
          | some i =>
            rw [hfS2] at hSsome
            cases hLFS : lineFind S (l' :: ls') with
            | none => rw [hLFS] at hSsome; simp at hSsome
            | some p =>
              simp only [Option.map_some']
              have h1 : decide (i + (l.length + 1) < j) = false := by
                simp
                omega
              have h2 : pairLex (p.1 + 1, p.2) (0, j) = false := by
                unfold pairLex
                simp
              rw [h1, h2]
          | none =>
            rw [hfS2] at hSsome
            cases hLFS : lineFind S (l' :: ls') with
            | some p => rw [hLFS] at hSsome; simp at hSsome
            | none => simp
        | none =>
          unfold foundPair tagBefore at ih
          cases hfS2 : findSub S (joinNl (l' :: ls')) with
          | some i =>
            rw [hfS2] at hSsome ih
            cases hLFS : lineFind S (l' :: ls') with
            | none => rw [hLFS] at hSsome; simp at hSsome
            | some p =>
              rw [hLFS] at ih
              cases hfE2 : findSub E (joinNl (l' :: ls')) with
              | some j =>
                rw [hfE2] at hEsome ih
                cases hLFE : lineFind E (l' :: ls') with
                | none => rw [hLFE] at hEsome; simp at hEsome
                | some q =>
                  rw [hLFE] at ih
                  simp only [Option.map_some']
                  simp only at ih
                  rw [pairLex_shift]
                  rw [← ih]
                  exact decide_eq_decide.mpr (by omega)
              | none =>
                rw [hfE2] at hEsome
                cases hLFE : lineFind E (l' :: ls') with
                | some q => rw [hLFE] at hEsome; simp at hEsome
                | none => simp
          | none =>
            rw [hfS2] at hSsome
            cases hLFS : lineFind S (l' :: ls') with
            | some p => rw [hLFS] at hSsome; simp at hSsome
            | none => simp

theorem lineFind_isSome_filter {T : List Char} {q : List Char → Bool}
    {L : List (List Char)}
    (h : ∀ l ∈ L, q l = false → findSub T l = none) :
    (lineFind T (L.filter q)).isSome = (lineFind T L).isSome := by
  induction L with
  | nil => rfl
  | cons l ls ih =>
    have ih2 := ih (fun x hx hqx => h x (List.mem_cons_of_mem l hx) hqx)
    by_cases hql : q l
    · rw [List.filter_cons_of_pos hql, lineFind_cons, lineFind_cons]
      cases hfl : findSub T l with
      | some c => rfl
      | none => simpa only [Option.isSome_map'] using ih2
    · have hfl : findSub T l = none :=
        h l (List.mem_cons_self l ls) (Bool.not_eq_true _ ▸ by simpa using hql)
      rw [List.filter_cons_of_neg (by simpa using hql), lineFind_cons, hfl]
      simpa only [Option.isSome_map'] using ih2

theorem tagBefore_cons_none {S E l : List Char} {ls : List (List Char)}
    (hfS : findSub S l = none) (hfE : findSub E l = none) :
    tagBefore S E (l :: ls) = tagBefore S E ls := by
  unfold tagBefore
  rw [lineFind_cons, lineFind_cons, hfS, hfE]
  cases lineFind S ls with
  | none => simp
  | some p =>
    cases lineFind E ls with
    | none => simp
    | some b => simpa using pairLex_shift p b

theorem tagBefore_filter {S E : List Char} {q : List Char → Bool}
    {L : List (List Char)}
    (h : ∀ l ∈ L, q l = false → findSub S l = none ∧ findSub E l = none) :
    tagBefore S E (L.filter q) = tagBefore S E L := by
  induction L with
  | nil => rfl
  | cons l ls ih =>
    have hS3 : ∀ x ∈ ls, q x = false → findSub S x = none :=
      fun x hx hqx => (h x (List.mem_cons_of_mem l hx) hqx).1
    have hE3 : ∀ x ∈ ls, q x = false → findSub E x = none :=
      fun x hx hqx => (h x (List.mem_cons_of_mem l hx) hqx).2
    have ih2 := ih (fun x hx hqx => h x (List.mem_cons_of_mem l hx) hqx)
    by_cases hql : q l
    · rw [List.filter_cons_of_pos hql]
      unfold tagBefore
      rw [lineFind_cons S l (List.filter q ls), lineFind_cons E l (List.filter q ls),
        lineFind_cons S l ls, lineFind_cons E l ls]
      cases hfS : findSub S l with
      | some i =>
        cases hfE : findSub E l with
        | some j => rfl
        | none =>
          have hEq := lineFind_isSome_filter hE3
          cases hLF1 : lineFind E (List.filter q ls) with
          | some b =>
            rw [hLF1] at hEq
            cases hLF2 : lineFind E ls with
            | none => rw [hLF2] at hEq; simp at hEq
            | some b2 =>
              simp only [Option.map_some']
              unfold pairLex
              simp
          | none =>
            rw [hLF1] at hEq
            cases hLF2 : lineFind E ls with
            | some b2 => rw [hLF2] at hEq; simp at hEq
            | none => simp
      | none =>
        have hSq := lineFind_isSome_filter hS3
        cases hfE : findSub E l with
        | some j =>
          cases hLF1 : lineFind S (List.filter q ls) with
          | some p =>
            rw [hLF1] at hSq
            cases hLF2 : lineFind S ls with
            | none => rw [hLF2] at hSq; simp at hSq
            | some p2 =>
              simp only [Option.map_some']
              unfold pairLex
              simp
          | none =>
            rw [hLF1] at hSq
            cases hLF2 : lineFind S ls with
            | some p2 => rw [hLF2] at hSq; simp at hSq
            | none => simp
        | none =>
          unfold tagBefore at ih2
          have hEq := lineFind_isSome_filter hE3
          cases hLF1 : lineFind S (List.filter q ls) with
          | some p =>
            rw [hLF1] at hSq ih2
            cases hLF2 : lineFind S ls with
            | none => rw [hLF2] at hSq; simp at hSq
            | some p2 =>
              rw [hLF2] at ih2
              cases hLF3 : lineFind E (List.filter q ls) with
              | some b =>
                rw [hLF3] at hEq ih2
                cases hLF4 : lineFind E ls with
                | none => rw [hLF4] at hEq; simp at hEq
                | some b2 =>
                  rw [hLF4] at ih2
                  simp only [Option.map_some']
                  simp only at ih2
                  rw [pairLex_shift, pairLex_shift]
                  exact ih2
              | none =>
                rw [hLF3] at hEq
                cases hLF4 : lineFind E ls with
                | some b2 => rw [hLF4] at hEq; simp at hEq
                | none => simp
          | none =>
            rw [hLF1] at hSq
            cases hLF2 : lineFind S ls with
            | some p2 => rw [hLF2] at hSq; simp at hSq
            | none => simp
    · have hql2 : q l = false := by simpa using hql
      obtain ⟨hfS, hfE⟩ := h l (List.mem_cons_self l ls) hql2
      rw [List.filter_cons_of_neg (by simpa using hql), ih2,
        tagBefore_cons_none hfS hfE]

/-! ## Tag-delimited extraction shared by the format plugins -/

/-- The guarded slice computed by the plugins' `extract_content`:
`raw_content[start_index + len(start_tag) : end_index].strip()` when both
tags are found with the start tag strictly first (`start_index != -1 and
end_index != -1 and start_index < end_index`), `none` otherwise. -/
def tagSlice (S E raw : List Char) : Option (List Char) :=
  match findSub S raw, findSub E raw with
  | some s, some e =>
    if s < e then
      some (pyStrip ((raw.drop (s + S.length)).take (e - (s + S.length))))
    else none
  | _, _ => none

theorem tagSlice_none_iff_foundPair_false {S E raw : List Char} :
    tagSlice S E raw = none ↔ foundPair S E raw = false := by
  unfold tagSlice foundPair
  cases findSub S raw with
  | none => simp
  | some s =>
    cases findSub E raw with
    | none => simp
    | some e =>
      by_cases hse : s < e <;> simp [hse]

theorem tagSlice_none_of_findSub_E_none {S E raw : List Char}
    (h : findSub E raw = none) : tagSlice S E raw = none := by
  unfold tagSlice
  rw [h]
  cases findSub S raw <;> rfl

theorem findSub_E_of_tagSlice_some {S E raw inner : List Char} (hE : E ≠ [])
    (h : tagSlice S E raw = some inner) : findSub E inner = none := by
  unfold tagSlice at h
  cases hfS : findSub S raw with
  | none => rw [hfS] at h; cases h
  | some s =>
    cases hfE : findSub E raw with
    | none => rw [hfS, hfE] at h; cases h
    | some e =>
      rw [hfS, hfE] at h
      dsimp only at h
      by_cases hse : s < e
      · rw [if_pos hse] at h
        cases h
        rw [findSub_none_iff_not_sub]
        intro hinf
        exact not_infix_slice hfE hE (s + S.length)
          (hinf.trans (pyStrip_sublist _))
      · rw [if_neg hse] at h
        cases h

/-! ## The subtext and list plugins' `extract_content` / `process` -/

def subtextStartTag : List Char := "%%% SUBTEXT START %%%".data

def subtextEndTag : List Char := "%%% SUBTEXT END %%%".data

def listStartTag : List Char := "%%% LIST START %%%".data

def listEndTag : List Char := "%%% LIST END %%%".data

def jsonStartTag : List Char := "%%% JSON START %%%".data

def jsonEndTag : List Char := "%%% JSON END %%%".data

/-- `SubtextOutputPlugin.extract_content`: the stripped slice between the
subtext tags, or the raw content unchanged when the markers are missing
or in the wrong order. -/
def subtextExtractC (raw : List Char) : List Char :=
  (tagSlice subtextStartTag subtextEndTag raw).getD raw

/-- `SubtextOutputPlugin.process`: extraction only. -/
def subtextProcessC (content : List Char) : List Char :=
  subtextExtractC content

/-- `ListOutputPlugin.extract_content`. -/
def listExtractC (raw : List Char) : List Char :=
  (tagSlice listStartTag listEndTag raw).getD raw

/-- The filter in `ListOutputPlugin.process`:
`[item for item in content.split("\n") if item.strip()]`. -/
def keepItem (l : List Char) : Bool := !(pyStrip l).isEmpty

/-- `ListOutputPlugin.process` on string input: extract, split on
newlines, drop blank items, re-join with newlines. -/
def listProcessC (content : List Char) : List Char :=
  joinNl ((splitNl (listExtractC content)).filter keepItem)

theorem mem_infix_joinNl {l : List Char} {L : List (List Char)}
    (h : l ∈ L) : l <:+: joinNl L := by
  induction L with
  | nil => cases h
  | cons m ms ih =>
    cases ms with
    | nil =>
      rcases List.mem_cons.mp h with h | h
      · subst h; rw [joinNl]
      · cases h
    | cons m' ms' =>
      rcases List.mem_cons.mp h with h | h
      · subst h
        rw [joinNl]
        exact (List.prefix_append l ('\n' :: joinNl (m' :: ms'))).isInfix
      · have h1 := ih h
        rw [joinNl]
        refine h1.trans ?_
        exact ((List.suffix_cons '\n' _).trans
          (List.suffix_append m _)).isInfix

theorem mem_splitNl_infix {l s : List Char} (h : l ∈ splitNl s) :
    l <:+: s := by
  have := mem_infix_joinNl h
  rwa [joinNl_splitNl] at this

theorem tagBefore_false_of_lineFind_E_none {S E : List Char}
    {L : List (List Char)} (h : lineFind E L = none) :
    tagBefore S E L = false := by
  unfold tagBefore
  rw [h]
  cases lineFind S L <;> rfl

theorem filter_self_idem {α : Type} (q : α → Bool) (L : List α) :
    (L.filter q).filter q = L.filter q := by
  induction L with
  | nil => rfl
  | cons a as ih =>
    by_cases hqa : q a
    · rw [List.filter_cons_of_pos hqa, List.filter_cons_of_pos hqa, ih]
    · rw [List.filter_cons_of_neg (by simpa using hqa), ih]

theorem keepItem_false_all_ws {l : List Char} (h : keepItem l = false) :
    ∀ c ∈ l, isWS c = true := by
  unfold keepItem at h
  rw [Bool.not_eq_false'] at h
  exact pyStrip_eq_nil_all_ws (List.isEmpty_iff.mp h)

/-- `SubtextOutputPlugin.process` is idempotent. -/
theorem subtextProcessC_idem (x : List Char) :
    subtextProcessC (subtextProcessC x) = subtextProcessC x := by
  unfold subtextProcessC subtextExtractC
  cases hts : tagSlice subtextStartTag subtextEndTag x with
  | none =>
    simp only [Option.getD_none]
    rw [hts, Option.getD_none]
  | some inner =>
    simp only [Option.getD_some]
    have hE : subtextEndTag ≠ [] := by decide
    have h1 := findSub_E_of_tagSlice_some hE hts
    rw [tagSlice_none_of_findSub_E_none h1, Option.getD_none]

/-- `ListOutputPlugin.process` is idempotent. -/
theorem listProcessC_idem (x : List Char) :
    listProcessC (listProcessC x) = listProcessC x := by
  have hSne : listStartTag ≠ [] := by decide
  have hEne : listEndTag ≠ [] := by decide
  have hSnl : '\n' ∉ listStartTag := by decide
  have hEnl : '\n' ∉ listEndTag := by decide
  have hSws : ∃ c ∈ listStartTag, isWS c = false := by decide
  have hEws : ∃ c ∈ listEndTag, isWS c = false := by decide
  unfold listProcessC
  set M := (splitNl (listExtractC x)).filter keepItem with hM
  have hMnl : ∀ l ∈ M, '\n' ∉ l := by
    intro l hl
    exact mem_splitNl_not_nl (List.mem_of_mem_filter hl)
  have hfp : foundPair listStartTag listEndTag (joinNl M) = false := by
    rw [foundPair_joinNl_eq_tagBefore hSne hEne hSnl hEnl]
    cases hts : tagSlice listStartTag listEndTag x with
    | some inner =>
      have h1 := findSub_E_of_tagSlice_some hEne hts
      apply tagBefore_false_of_lineFind_E_none
      apply lineFind_eq_none
      intro l hl
      rw [findSub_none_iff_not_sub]
      intro hinf
      have h2 : l <:+: inner := by
        have h3 := mem_splitNl_infix (List.mem_of_mem_filter (hM ▸ hl))
        rwa [listExtractC, hts, Option.getD_some] at h3
      rw [findSub_none_iff_not_sub] at h1
      exact h1 (hinf.trans h2)
    | none =>
      have hx : listExtractC x = x := by rw [listExtractC, hts]; rfl
      rw [hM, hx, tagBefore_filter, ← foundPair_joinNl_eq_tagBefore hSne hEne hSnl hEnl,
        joinNl_splitNl, ← tagSlice_none_iff_foundPair_false]
      · exact hts
      · intro l _ hkl
        exact ⟨findSub_ws_none hSws (keepItem_false_all_ws hkl),
          findSub_ws_none hEws (keepItem_false_all_ws hkl)⟩
  have hext : listExtractC (joinNl M) = joinNl M := by
    rw [listExtractC, tagSlice_none_iff_foundPair_false.mpr hfp]
    rfl
  rw [hext]
  cases hMc : M with
  | nil =>
    rw [joinNl]
    have h0 : splitNl ([] : List Char) = [[]] := rfl
    rw [h0]
    rfl
  | cons m ms =>
    rw [← hMc, splitNl_joinNl M (by rw [hMc]; simp) hMnl, hM, filter_self_idem]

/-! ## JSON model

A faithful executable model of the subset of `json.loads` / `json.dumps`
exercised by the plugins.  Restrictions, each outside what any theorem
below depends on: numeric literals are limited to integers (floating
point is outside the shallow embedding), and surrogate `\uXXXX` escape
pairs are rejected rather than combined.  Error messages follow CPython's
wording without position information. -/

inductive JVal where
  | jnull
  | jbool (b : Bool)
  | jint (n : Int)
  | jstr (s : List Char)
  | jarr (xs : List JVal)
  | jobj (kvs : List (List Char × JVal))

/-- The whitespace skipped by the `json` scanner (`' \t\n\r'`). -/
def jsonWS (c : Char) : Bool := c = ' ' || c = '\t' || c = '\n' || c = '\r'

def skipWs (s : List Char) : List Char := s.dropWhile jsonWS

def hexVal (c : Char) : Option Nat :=
  if '0' ≤ c ∧ c ≤ '9' then some (c.toNat - 48)
  else if 'a' ≤ c ∧ c ≤ 'f' then some (c.toNat - 87)
  else if 'A' ≤ c ∧ c ≤ 'F' then some (c.toNat - 55)
  else none

/-- `json` string scanning after the opening quote, strict mode: named
escapes, `\uXXXX`, and a hard error on raw control characters. -/
def parseJStr : List Char → Except String (List Char × List Char)
  | [] => .error "Unterminated string"
  | '"' :: rest => .ok ([], rest)
  | '\\' :: 'u' :: h1 :: h2 :: h3 :: h4 :: rest2 =>
    match hexVal h1, hexVal h2, hexVal h3, hexVal h4 with
    | some a, some b, some c, some d =>
      let code := ((a * 16 + b) * 16 + c) * 16 + d
      if 3486 * 16 ≤ code ∧ code < 3584 * 16 then
        .error "surrogate escape outside model"
      else
        match parseJStr rest2 with
        | .ok (cs, r) => .ok (Char.ofNat code :: cs, r)
        | .error e => .error e
    | _, _, _, _ => .error "Invalid hex escape"
  | '\\' :: e :: rest2 =>
    let c? : Option Char :=
      if e = '"' then some '"'
      else if e = '\\' then some '\\'
      else if e = '/' then some '/'
      else if e = 'b' then some '\x08'
      else if e = 'f' then some '\x0c'
      else if e = 'n' then some '\n'
      else if e = 'r' then some '\r'
      else if e = 't' then some '\t'
      else none
    match c? with
    | some c =>
      match parseJStr rest2 with
      | .ok (cs, r) => .ok (c :: cs, r)
      | .error err => .error err
    | none => .error "Invalid escape"
  | '\\' :: [] => .error "Unterminated string"
  | c :: rest =>
    if c.toNat < 32 then .error "Invalid control character"
    else
      match parseJStr rest with
      | .ok (cs, r) => .ok (c :: cs, r)
      | .error e => .error e

def isDig (c : Char) : Bool := '0' ≤ c && c ≤ '9'

def digitsToNat (ds : List Char) : Nat :=
  ds.foldl (fun acc c => acc * 10 + (c.toNat - 48)) 0

/-- Integer-literal scanning (the `NUMBER_RE` integer part; a following
`.`/`e`/`E` marks a float literal, outside the model). -/
def parseJNum (s : List Char) : Except String (JVal × List Char) :=
  let neg : Bool := match s with | '-' :: _ => true | _ => false
  let s1 := if neg then s.tail else s
  match s1 with
  | '0' :: r =>
    match r with
    | '.' :: _ => .error "float literal outside model"
    | 'e' :: _ => .error "float literal outside model"
    | 'E' :: _ => .error "float literal outside model"
    | _ => .ok (.jint 0, r)
  | c :: _ =>
    if isDig c ∧ c ≠ '0' then
      let ds := s1.takeWhile isDig
      let r := s1.dropWhile isDig
      match r with
      | '.' :: _ => .error "float literal outside model"
      | 'e' :: _ => .error "float literal outside model"
      | 'E' :: _ => .error "float literal outside model"
      | _ =>
        let n : Int := Int.ofNat (digitsToNat ds)
        .ok (.jint (if neg then -n else n), r)
    else .error "Expecting value"
  | [] => .error "Expecting value"

/-- `dict(pairs)` update semantics: replace in place, else append. -/
def objInsert (kvs : List (List Char × JVal)) (k : List Char) (v : JVal) :
    List (List Char × JVal) :=
  match kvs with
  | [] => [(k, v)]
  | (k0, v0) :: rest =>
    if k0 = k then (k0, v) :: rest else (k0, v0) :: objInsert rest k v

mutual

/-- `json` value scanner (`scan_once`), positioned at the value's first
character. -/
def parseJVal : Nat → List Char → Except String (JVal × List Char)
  | 0, _ => .error "RecursionError"
  | _ + 1, [] => .error "Expecting value"
  | fuel + 1, c :: rest =>
    if c = '"' then
      match parseJStr rest with
      | .ok (cs, r) => .ok (.jstr cs, r)
      | .error e => .error e
    else if c = '{' then
      match skipWs rest with
      | '}' :: r2 => .ok (.jobj [], r2)
      | '"' :: r2 =>
        match parseJObjItems fuel r2 with
        | .ok (pairs, r) =>
          .ok (.jobj (pairs.foldl (fun m kv => objInsert m kv.1 kv.2) []), r)
        | .error e => .error e
      | _ => .error "Expecting property name enclosed in double quotes"
    else if c = '[' then
      match skipWs rest with
      | ']' :: r2 => .ok (.jarr [], r2)
      | r2 =>
        match parseJArrItems fuel r2 with
        | .ok (vs, r) => .ok (.jarr vs, r)
        | .error e => .error e
    else if c = 'n' then
      match rest with
      | 'u' :: 'l' :: 'l' :: r => .ok (.jnull, r)
      | _ => .error "Expecting value"
    else if c = 't' then
      match rest with
      | 'r' :: 'u' :: 'e' :: r => .ok (.jbool true, r)
      | _ => .error "Expecting value"
    else if c = 'f' then
      match rest with
      | 'a' :: 'l' :: 's' :: 'e' :: r => .ok (.jbool false, r)
      | _ => .error "Expecting value"
    else if c = '-' || isDig c then parseJNum (c :: rest)
    else .error "Expecting value"

/-- Array items loop (`JSONArray`), positioned at an item's first
character. -/
def parseJArrItems : Nat → List Char → Except String (List JVal × List Char)
  | 0, _ => .error "RecursionError"
  | fuel + 1, s =>
    match parseJVal fuel s with
    | .error e => .error e
    | .ok (v, r) =>
      match skipWs r with
      | ']' :: r2 => .ok ([v], r2)
      | ',' :: r2 =>
        match parseJArrItems fuel (skipWs r2) with
        | .ok (vs, r3) => .ok (v :: vs, r3)
        | .error e => .error e
      | _ => .error "Expecting ',' delimiter"

/-- Object members loop (`JSONObject`), positioned after the opening
quote of a key; returns the member pairs in source order. -/
def parseJObjItems : Nat → List Char →
    Except String (List (List Char × JVal) × List Char)
  | 0, _ => .error "RecursionError"
  | fuel + 1, s =>
    match parseJStr s with
    | .error e => .error e
    | .ok (k, r) =>
      match skipWs r with
      | ':' :: r2 =>
        match parseJVal fuel (skipWs r2) with
        | .error e => .error e
        | .ok (v, r3) =>
          match skipWs r3 with
          | '}' :: r4 => .ok ([(k, v)], r4)
          | ',' :: r4 =>
            match skipWs r4 with
            | '"' :: r5 =>
              match parseJObjItems fuel r5 with
              | .ok (kvs, r6) => .ok ((k, v) :: kvs, r6)
              | .error e => .error e
            | _ => .error "Expecting property name enclosed in double quotes"
          | _ => .error "Expecting ',' delimiter"
      | _ => .error "Expecting ':' delimiter"

end

/-- `json.loads`: skip leading whitespace, scan one value, and reject
trailing non-whitespace ("Extra data"). -/
def jsonLoads (s : List Char) : Except String JVal :=
  match parseJVal (4 * (s.length + 1)) (skipWs s) with
  | .error e => .error e
  | .ok (v, rest) =>
    if (skipWs rest).isEmpty then .ok v else .error "Extra data"

def hexDigit (n : Nat) : Char :=
  if n < 10 then Char.ofNat (48 + n) else Char.ofNat (97 + (n - 10))

def uEscape (n : Nat) : List Char :=
  ['\\', 'u', hexDigit (n / 4096 % 16), hexDigit (n / 256 % 16),
    hexDigit (n / 16 % 16), hexDigit (n % 16)]

/-- The `ensure_ascii` string escaper of `json.dumps`: named escapes,
`\uXXXX` for other characters outside `0x20..0x7e` (surrogate pairs
above the BMP). -/
def escChar (c : Char) : List Char :=
  if c = '"' then ['\\', '"']
  else if c = '\\' then ['\\', '\\']
  else if c = '\n' then ['\\', 'n']
  else if c = '\r' then ['\\', 'r']
  else if c = '\t' then ['\\', 't']
  else if c = '\x08' then ['\\', 'b']
  else if c = '\x0c' then ['\\', 'f']
  else if c.toNat < 32 || c.toNat > 126 then
    if c.toNat < 65536 then uEscape c.toNat
    else
      uEscape (55296 + (c.toNat - 65536) / 1024) ++
        uEscape (56320 + (c.toNat - 65536) % 1024)
  else [c]

def encStr (s : List Char) : List Char :=
  '"' :: (s.map escChar).join ++ ['"']

def indentChars (d : Nat) : List Char := List.replicate (2 * d) ' '

mutual

/-- `json.dumps(value, indent=2)` at nesting depth `d` (separators
`(',', ': ')`, `ensure_ascii` string encoding, empty containers kept on
one line). -/
def dumpJVal : JVal → Nat → List Char
  | .jnull, _ => "null".data
  | .jbool true, _ => "true".data
  | .jbool false, _ => "false".data
  | .jint n, _ => (toString n).data
  | .jstr s, _ => encStr s
  | .jarr [], _ => ['[', ']']
  | .jarr (x :: xs), d =>
    '[' :: '\n' :: (indentChars (d + 1) ++ dumpJVal x (d + 1) ++
      dumpArrItems xs (d + 1) ++ '\n' :: (indentChars d ++ [']']))
  | .jobj [], _ => ['\x7b', '\x7d']
  | .jobj (kv :: kvs), d =>
    '\x7b' :: '\n' :: (indentChars (d + 1) ++ encStr kv.1 ++ ':' :: ' ' ::
      (dumpJVal kv.2 (d + 1) ++ dumpObjItems kvs (d + 1) ++
        '\n' :: (indentChars d ++ ['\x7d'])))

def dumpArrItems : List JVal → Nat → List Char
  | [], _ => []
  | x :: xs, d =>
    ',' :: '\n' :: (indentChars d ++ dumpJVal x d ++ dumpArrItems xs d)

def dumpObjItems : List (List Char × JVal) → Nat → List Char
  | [], _ => []
  | kv :: kvs, d =>
    ',' :: '\n' :: (indentChars d ++ encStr kv.1 ++ ':' :: ' ' ::
      (dumpJVal kv.2 d ++ dumpObjItems kvs d))

end

def jsonDumps (v : JVal) : List Char := dumpJVal v 0

/-- `JsonOutputPlugin.extract_content`: slice between the JSON tags when
present in order, otherwise the whole content stripped. -/
def jsonExtractC (raw : List Char) : List Char :=
  match tagSlice jsonStartTag jsonEndTag raw with
  | some inner => inner
  | none => pyStrip raw

/-- `JsonOutputPlugin.process` on string input: extract, `json.loads`,
`json.dumps(parsed, indent=2)`; a parse failure becomes
`ValueError("Invalid JSON content: ...")`. -/
def jsonProcessC (content : List Char) : Except String (List Char) :=
  match jsonLoads (jsonExtractC content) with
  | .error e => .error ("Invalid JSON content: " ++ e)
  | .ok v => .ok (jsonDumps v)

def jobjGet (kvs : List (List Char × JVal)) (k : List Char) : Option JVal :=
  match kvs with
  | [] => none
  | (k0, v) :: rest => if k0 = k then some v else jobjGet rest k

/-- Type names of the `jsonschema` `"type"` keyword. -/
def jsonTypeMatches (t : List Char) (v : JVal) : Bool :=
  match v with
  | .jnull => t = "null".data
  | .jbool _ => t = "boolean".data
  | .jint _ => t = "integer".data || t = "number".data
  | .jstr _ => t = "string".data
  | .jarr _ => t = "array".data
  | .jobj _ => t = "object".data

/-- Modelled from the spec: the external `jsonschema.validate` library
call, on the keyword subset the repository's schemas use (`type`,
`required`, `properties`, `items`, `minLength`, `maxLength`); fuel
bounds the nesting depth.  No theorem below depends on its verdicts. -/
def jsonschemaCheck : Nat → JVal → JVal → Bool
  | 0, _, _ => true
  | fuel + 1, .jobj skvs, inst =>
    (match jobjGet skvs "type".data with
     | some (.jstr t) => jsonTypeMatches t inst
     | _ => true) &&
    (match jobjGet skvs "required".data, inst with
     | some (.jarr reqs), .jobj kvs =>
       reqs.all (fun r =>
         match r with
         | .jstr rk => (jobjGet kvs rk).isSome
         | _ => true)
     | _, _ => true) &&
    (match jobjGet skvs "minLength".data, inst with
     | some (.jint mn), .jstr s => decide (mn ≤ (s.length : Int))
     | _, _ => true) &&
    (match jobjGet skvs "maxLength".data, inst with
     | some (.jint mx), .jstr s => decide ((s.length : Int) ≤ mx)
     | _, _ => true) &&
    (match jobjGet skvs "properties".data, inst with
     | some (.jobj props), .jobj kvs =>
       props.all (fun p =>
         match jobjGet kvs p.1 with
         | some v => jsonschemaCheck fuel p.2 v
         | none => true)
     | _, _ => true) &&
    (match jobjGet skvs "items".data, inst with
     | some isch, .jarr xs => xs.all (fun x => jsonschemaCheck fuel isch x)
     | _, _ => true)
  | _ + 1, _, _ => true

/-! ## Python exception classes caught by the content processor -/

/-- The exception classes appearing in the content-processing paths:
the strategy's `except (ValueError, TypeError, AttributeError,
KeyError)` catches all four; the repair branch catches only
`ValueError`. -/
inductive PyErr where
  | valueError (msg : String)
  | typeError (msg : String)
  | attributeError (msg : String)
  | keyError (msg : String)
deriving DecidableEq, Repr

/-- `str(e)`. -/
def PyErr.msg : PyErr → String
  | .valueError m => m
  | .typeError m => m
  | .attributeError m => m
  | .keyError m => m

/-! ## The shipped plugins' `process` / `validate_content` (string level) -/

/-- `TextOutputPlugin.process`: returns the content unchanged. -/
def TextOutputPlugin.process (content : String) : String := content

/-- `TextOutputPlugin.extract_content`: `raw_content.strip()`. -/
def TextOutputPlugin.extract_content (raw : String) : String :=
  String.mk (pyStrip raw.data)

/-- `TextOutputPlugin._parse_schema`: `None` for a falsy schema string,
`json.loads(schema)` otherwise; invalid JSON raises `ValueError`. -/
def TextOutputPlugin.parse_schema (schema : Option String) :
    Except String (Option JVal) :=
  match schema with
  | none => .ok none
  | some s =>
    if s = "" then .ok none
    else
      match jsonLoads s.data with
      | .ok v => .ok (some v)
      | .error e => .error ("Invalid JSON in schema: " ++ e)

/-- `TextOutputPlugin.validate_content`: ignores the `schema` argument
entirely; raises `ValueError("No schema available for validation")`
when the plugin holds no parsed schema, and otherwise checks
`minLength <= len(content) <= maxLength` against the plugin's own
parsed schema (`maxLength` absent means unbounded, Python's
`float("inf")` default; a non-dict schema or non-integer bound would
raise, as the Python attribute/comparison errors). -/
def TextOutputPlugin.validate_content (parsedSchema : Option JVal)
    (content : String) ( schemaArg : Option String) : Except PyErr Bool :=
  match parsedSchema with
  | none => .error (.valueError "No schema available for validation")
  | some (.jobj kvs) =>
    match jobjGet kvs "minLength".data, jobjGet kvs "maxLength".data with
    | some (.jint mn), some (.jint mx) =>
      .ok (decide (mn ≤ (content.length : Int) ∧ (content.length : Int) ≤ mx))
    | some (.jint mn), none => .ok (decide (mn ≤ (content.length : Int)))
    | none, some (.jint mx) =>
      .ok (decide (0 ≤ (content.length : Int) ∧ (content.length : Int) ≤ mx))
    | none, none => .ok (decide ((0 : Int) ≤ (content.length : Int)))
    | _, _ => .error (.typeError "unsupported comparison for length bound")
  | some _ => .error (.attributeError "parsed schema has no attribute get")

/-- `JsonOutputPlugin.process`. -/
def JsonOutputPlugin.process (content : String) : Except String String :=
  match jsonProcessC content.data with
  | .ok l => .ok (String.mk l)
  | .error e => .error e

/-- `JsonOutputPlugin.validate_content`: immediately `True` when
`schema is None`; otherwise parse content and schema (any parse failure
yields `False`) and run the schema check. -/
def JsonOutputPlugin.validate_content (content : String)
    (schema : Option String) : Bool :=
  match schema with
  | none => true
  | some sch =>
    match jsonLoads content.data, jsonLoads sch.data with
    | .ok c, .ok s => jsonschemaCheck (sch.length + 1) s c
    | _, _ => false

/-- `ListOutputPlugin.process` (string input). -/
def ListOutputPlugin.process (content : String) : String :=
  String.mk (listProcessC content.data)

/-- `ListOutputPlugin.validate_content` on string content: the schema
argument is unused; strips and splits the content and rejects only an
empty items list (which `split` never produces).  Non-string content —
rejected by the `isinstance` guard — is outside this string-typed
model. -/
def ListOutputPlugin.validate_content (content : String)
    ( schemaArg : Option String) : Bool :=
  let items := splitNl (pyStrip content.data)
  if items.isEmpty then false else true

/-- `SubtextOutputPlugin.process`. -/
def SubtextOutputPlugin.process (content : String) : String :=
  String.mk (subtextProcessC content.data)

/-- `SubtextOutputPlugin.validate_content`: always `True`. -/
def SubtextOutputPlugin.validate_content (content : String)
    ( schemaArg : Option String) : Bool := true

/-! ## The content processor (`storyteller_content_processor.py`)

State passing is explicit: the LLM collaborator is an oracle
`llm : Nat → String` giving the response to the n-th
`generate_content` call of the packet's processing (the empty string
models a falsy response), and each model call is recorded as an event.
The repair call runs at the fixed temperature `0.2`, each retry call at
the phase's configured temperature, which is what the two event
constructors denote. -/

/-- `StorytellerContentPacket`: the fields the processing paths read.
`prompt` is `metadata["prompt"]`, the original generation prompt the
phase executor stored in the packet. -/
structure StorytellerContentPacket where
  content : String
  prompt : String
  plugin_name : String
  stage_name : String
  phase_name : String
deriving DecidableEq, Repr

/-- The capability surface of a loaded plugin as the processor uses it:
`process_wrapper` (extract + process), `process` alone (the retry loop
calls `plugin.process` directly, without extraction), and `validate`
(current-schema fetch + `validate_content` + invalid-content dump). -/
structure PluginModel where
  name : String
  format : String
  process_wrapper : String → Except PyErr String
  process : String → Except PyErr String
  validate : String → Except PyErr Bool

/-- The processor's collaborators for one packet: the resolved schema
(`get_schema`), the plugin manager's repair/retry flags for the
plugin's format, the configured `default_max_retries`, whether the
stage-manager index/temperature lookups inside the retry loop succeed,
and the LLM oracle. -/
structure ProcEnv where
  schema : Option String
  repairEnabled : Bool
  retryEnabled : Bool
  maxRetries : Nat
  stageLookupOk : Bool
  llm : Nat → String

/-- One `generate_content` call: a repair call (fixed temperature 0.2)
or a retry call (phase temperature), with the prompt string passed. -/
inductive LlmEvent where
  | repairCall (prompt : String)
  | retryCall (prompt : String)
deriving DecidableEq, Repr

def LlmEvent.isRepair : LlmEvent → Bool
  | .repairCall _ => true
  | .retryCall _ => false

def LlmEvent.isRetry : LlmEvent → Bool
  | .repairCall _ => false
  | .retryCall _ => true

/-- `StorytellerContentProcessor.generate_repair_prompt`. -/
def generate_repair_prompt (content pluginName stage phase : String) :
    String :=
  "Repair content for stage '" ++ stage ++ "', phase '" ++ phase ++
    "'. Plugin '" ++ pluginName ++ "'. Content: " ++ content

/-- `StorytellerContentProcessor.attempt_repair`: build the repair
prompt, one `generate_content` call at temperature 0.2, raise
`ValueError` on a falsy response. -/
def attempt_repair (env : ProcEnv) (callIdx : Nat)
    (content pluginName stage phase : String) : Except PyErr String :=
  let resp := env.llm callIdx
  if resp = "" then
    .error (.valueError "LLM failed to generate repaired content")
  else .ok resp

/-- `StorytellerContentProcessor.retry_content_generation`'s loop body,
with `remaining` iterations of `range(max_retries)` left and `callIdx`
model calls already made.  Each iteration re-resolves the stage/phase
indices and temperature (a failure there is caught and the loop
continues), calls the model with `content_packet.content` as the
prompt, re-processes with `plugin.process`, re-validates, and returns
on the first valid result; all four caught exception classes keep the
loop going.  Exhaustion raises `StorytellerContentProcessingError`. -/
def retry_content_generation (env : ProcEnv) (plugin : PluginModel)
    (pkt : StorytellerContentPacket) :
    Nat → Nat → Except String (StorytellerContentPacket × Bool) × List LlmEvent
  | 0, _ =>
    (.error ("Failed to generate valid content for " ++ pkt.stage_name ++
      "_" ++ pkt.phase_name ++ " after " ++ toString env.maxRetries ++
      " retries"), [])
  | r + 1, k =>
    if env.stageLookupOk then
      let ev := LlmEvent.retryCall pkt.content
      let resp := env.llm k
      match plugin.process resp with
      | .error _ =>
        let next := retry_content_generation env plugin pkt r (k + 1)
        (next.1, ev :: next.2)
      | .ok processed =>
        match plugin.validate processed with
        | .error _ =>
          let next := retry_content_generation env plugin pkt r (k + 1)
          (next.1, ev :: next.2)
        | .ok true => (.ok ({ pkt with content := processed }, true), [ev])
        | .ok false =>
          let next := retry_content_generation env plugin pkt r (k + 1)
          (next.1, ev :: next.2)
    else
      retry_content_generation env plugin pkt r k

/-- An error escaping `handle_invalid_content`: either an uncaught
Python exception from the repair branch, or the raised
`StorytellerContentProcessingError`. -/
inductive HandleErr where
  | py (e : PyErr)
  | fatal (msg : String)
deriving DecidableEq, Repr

/-- The tail of `handle_invalid_content` after the repair branch: run
the retry loop when the plugin's retry flag is set, else raise
`StorytellerContentProcessingError`. -/
def handle_invalid_tail (env : ProcEnv) (plugin : PluginModel)
    (pkt : StorytellerContentPacket) (callIdx : Nat)
    (evs : List LlmEvent) :
    Except HandleErr (StorytellerContentPacket × Bool) × List LlmEvent :=
  if env.retryEnabled then
    let next := retry_content_generation env plugin pkt env.maxRetries callIdx
    (match next.1 with
     | .ok res => .ok res
     | .error m => .error (.fatal m), evs ++ next.2)
  else
    (.error (.fatal ("Failed to process content for " ++ pkt.stage_name ++
      "_" ++ pkt.phase_name)), evs)

/-- `StorytellerContentProcessor.handle_invalid_content`: when the
repair flag is set, one `attempt_repair` model call followed by
re-validation (`except ValueError` falls through to the retry branch; a
`TypeError`/`AttributeError`/`KeyError` from `validate` propagates);
then the retry branch, else the raise. -/
def handle_invalid_content (env : ProcEnv) (plugin : PluginModel)
    (pkt : StorytellerContentPacket) :
    Except HandleErr (StorytellerContentPacket × Bool) × List LlmEvent :=
  if env.repairEnabled then
    let ev := LlmEvent.repairCall
      (generate_repair_prompt pkt.content plugin.name pkt.stage_name
        pkt.phase_name)
    match attempt_repair env 0 pkt.content plugin.name pkt.stage_name
        pkt.phase_name with
    | .error (.valueError _) => handle_invalid_tail env plugin pkt 1 [ev]
    | .error e => (.error (.py e), [ev])
    | .ok repaired =>
      match plugin.validate repaired with
      | .ok true => (.ok ({ pkt with content := repaired }, true), [ev])
      | .ok false => handle_invalid_tail env plugin pkt 1 [ev]
      | .error (.valueError _) => handle_invalid_tail env plugin pkt 1 [ev]
      | .error e => (.error (.py e), [ev])
  else
    handle_invalid_tail env plugin pkt 0 []

/-- A `StorytellerContentProcessingError` escaping `process_content`:
raised by `handle_processing_error` (wrapping a caught exception) or
propagated out of `handle_invalid_content`. -/
inductive ProcFatal where
  | halted (msg : String)
  | processingFailed (msg : String)
deriving DecidableEq, Repr

/-- The message raised by
`StorytellerContentProcessor.handle_processing_error` for an exception
caught in the strategy. -/
def haltMsg (pluginName stage phase : String) (e : PyErr) : String :=
  "Halted due to content processing error: Error in stage '" ++ stage ++
    "', phase '" ++ phase ++ "': Error processing " ++ pluginName ++
    " content for " ++ stage ++ "_" ++ phase ++ ": " ++ e.msg

/-- Python truthiness of the resolved schema (`if schema and ...`):
`None` and the empty string are falsy. -/
def pyTruthy : Option String → Bool
  | none => false
  | some s => s != ""

/-- `DefaultContentProcessingStrategy.process` (the strategy
`process_content` delegates to): process+extract, store the processed
content on the packet, validate only when a schema is resolved, defer
invalid content to `handle_invalid_content`; the four caught exception
classes are converted by `handle_processing_error` into a raised
content-processing error, and a `StorytellerContentProcessingError`
from `handle_invalid_content` (not in the caught tuple) propagates. -/
def DefaultContentProcessingStrategy.process (env : ProcEnv)
    (plugin : PluginModel) (pkt : StorytellerContentPacket) :
    Except ProcFatal (StorytellerContentPacket × Bool) × List LlmEvent :=
  match plugin.process_wrapper pkt.content with
  | .error e =>
    (.error (.halted (haltMsg pkt.plugin_name pkt.stage_name
      pkt.phase_name e)), [])
  | .ok processed =>
    let pkt1 := { pkt with content := processed }
    if pyTruthy env.schema then
      match plugin.validate processed with
      | .error e =>
        (.error (.halted (haltMsg pkt.plugin_name pkt.stage_name
          pkt.phase_name e)), [])
      | .ok true => (.ok (pkt1, true), [])
      | .ok false =>
        let hi := handle_invalid_content env plugin pkt1
        (match hi.1 with
         | .ok res => .ok res
         | .error (.fatal m) => .error (.processingFailed m)
         | .error (.py e) =>
           .error (.halted (haltMsg pkt.plugin_name pkt.stage_name
             pkt.phase_name e)), hi.2)
    else (.ok (pkt1, true), [])

/-- `StorytellerContentProcessor.process_content`: the `isinstance`
guard always passes in this typed model, so it is the delegation to the
default strategy. -/
def process_content (env : ProcEnv) (plugin : PluginModel)
    (pkt : StorytellerContentPacket) :
    Except ProcFatal (StorytellerContentPacket × Bool) × List LlmEvent :=
  DefaultContentProcessingStrategy.process env plugin pkt

/-! ## Stage manager and progress tracker
(`storyteller_stage_manager.py`) -/

/-- String-keyed Python `dict` as an association list; insertion keeps
the first position of a repeated key and overwrites its value. -/
def dictInsert {α : Type} (m : List (String × α)) (k : String) (v : α) :
    List (String × α) :=
  match m with
  | [] => [(k, v)]
  | (k0, v0) :: rest =>
    if k0 = k then (k0, v) :: rest else (k0, v0) :: dictInsert rest k v

def dictGet {α : Type} (m : List (String × α)) (k : String) : Option α :=
  match m with
  | [] => none
  | (k0, v) :: rest => if k0 = k then some v else dictGet rest k

/-- A phase definition as the stage manager reads it: identity `name`
and the optional `schema` file reference (`none` for an absent key or a
`None` value — both fall through to "no schema"). -/
structure PhaseConfig where
  name : String
  schema : Option String
deriving DecidableEq, Repr

/-- A stage definition: identity `name`, the `enabled` flag, and the
ordered phases. -/
structure StageConfig where
  name : String
  enabled : Bool
  phases : List PhaseConfig
deriving DecidableEq, Repr

/-- `StorytellerStageManager._load_enabled_stages`. -/
def load_enabled_stages (cfg : List StageConfig) : List StageConfig :=
  cfg.filter (fun st => st.enabled)

structure StorytellerStageManager where
  stages : List StageConfig
deriving DecidableEq, Repr

/-- Stage-manager construction from configuration. -/
def StorytellerStageManager.ofConfig (cfg : List StageConfig) :
    StorytellerStageManager :=
  ⟨load_enabled_stages cfg⟩

/-- `_create_stage_name_index_mapping`: a dict comprehension, so a
duplicated stage name keeps the last index. -/
def StorytellerStageManager.stage_name_to_index
    (mgr : StorytellerStageManager) : List (String × Nat) :=
  (mgr.stages.enum.map (fun p => (p.2.name, p.1))).foldl
    (fun m kv => dictInsert m kv.1 kv.2) []

def phaseIndexMapOf (st : StageConfig) : List (String × Nat) :=
  (st.phases.enum.map (fun p => (p.2.name, p.1))).foldl
    (fun m kv => dictInsert m kv.1 kv.2) []

/-- `_create_phase_name_index_mapping`. -/
def StorytellerStageManager.phase_name_to_index
    (mgr : StorytellerStageManager) : List (String × List (String × Nat)) :=
  (mgr.stages.map (fun st => (st.name, phaseIndexMapOf st))).foldl
    (fun m kv => dictInsert m kv.1 kv.2) []

/-- `get_stage`: returns `None` — not an error — when the index is
outside `[0, len(stages))`. -/
def StorytellerStageManager.get_stage (mgr : StorytellerStageManager)
    (stage_index : Int) : Option StageConfig :=
  if 0 ≤ stage_index ∧ stage_index < (mgr.stages.length : Int) then
    mgr.stages.get? stage_index.toNat
  else none

/-- `get_phase`: raises `IndexError` when either index is out of
range. -/
def StorytellerStageManager.get_phase (mgr : StorytellerStageManager)
    (stage_index phase_index : Int) : Except String PhaseConfig :=
  if h : 0 ≤ stage_index ∧ stage_index < (mgr.stages.length : Int) then
    let stage := mgr.stages.get ⟨stage_index.toNat, by omega⟩
    if h2 : 0 ≤ phase_index ∧ phase_index < (stage.phases.length : Int) then
      .ok (stage.phases.get ⟨phase_index.toNat, by omega⟩)
    else
      .error ("Phase index " ++ toString phase_index ++
        " is out of range for stage " ++ toString stage_index)
  else .error ("Stage index " ++ toString stage_index ++ " is out of range")

/-- `get_stages`: a copy of the enabled-stage list. -/
def StorytellerStageManager.get_stages (mgr : StorytellerStageManager) :
    List StageConfig :=
  mgr.stages

/-- `get_stage_index_by_name`: raises `ValueError` for an unknown
name. -/
def StorytellerStageManager.get_stage_index_by_name
    (mgr : StorytellerStageManager) (stage_name : String) :
    Except String Nat :=
  match dictGet mgr.stage_name_to_index stage_name with
  | some i => .ok i
  | none => .error ("Stage '" ++ stage_name ++ "' not found")

/-- `get_phase_index_by_name`: raises `ValueError` when the stage or
the phase name is unknown. -/
def StorytellerStageManager.get_phase_index_by_name
    (mgr : StorytellerStageManager) (stage_name phase_name : String) :
    Except String Nat :=
  match dictGet mgr.phase_name_to_index stage_name with
  | some pmap =>
    match dictGet pmap phase_name with
    | some i => .ok i
    | none =>
      .error ("Phase '" ++ phase_name ++ "' not found in stage '" ++
        stage_name ++ "'")
  | none =>
    .error ("Phase '" ++ phase_name ++ "' not found in stage '" ++
      stage_name ++ "'")

/-- `get_stage_by_name`: returns `None` — not an error — for an unknown
name. -/
def StorytellerStageManager.get_stage_by_name
    (mgr : StorytellerStageManager) (stage_name : String) :
    Option StageConfig :=
  match dictGet mgr.stage_name_to_index stage_name with
  | some i => mgr.stages.get? i
  | none => none

/-- `is_valid_stage`. -/
def StorytellerStageManager.is_valid_stage (mgr : StorytellerStageManager)
    (stage_name : String) : Bool :=
  (dictGet mgr.stage_name_to_index stage_name).isSome

/-- `get_phase_schema`: name/index lookups inside a
`try ... except (ValueError, IndexError)` that returns `(False, None)`;
the `RuntimeError` for missing path manager / config loader is outside
that tuple and propagates; a configured non-empty schema file is read
through the configuration collaborator (`loadSchema` models
`path_manager.get_schema_path` composed with `config_loader.load_text`). -/
def StorytellerStageManager.get_phase_schema
    (mgr : StorytellerStageManager) (managersPresent : Bool)
    (loadSchema : String → String) (stage_name phase_name : String) :
    Except String (Bool × Option String) :=
  match mgr.get_stage_index_by_name stage_name with
  | .error _ => .ok (false, none)
  | .ok stage_index =>
    match mgr.get_phase_index_by_name stage_name phase_name with
    | .error _ => .ok (false, none)
    | .ok phase_index =>
      match mgr.get_phase (stage_index : Int) (phase_index : Int) with
      | .error _ => .ok (false, none)
      | .ok phase =>
        if managersPresent = false then
          .error "Can't get schema without path manager or config loader."
        else
          match phase.schema with
          | some schema_file =>
            if schema_file ≠ "" then .ok (true, some (loadSchema schema_file))
            else .ok (false, none)
          | none => .ok (false, none)

/-- `StorytellerProgressTracker` state: completed-output map and the
`(stage, phase)` cursor (content values modelled as strings). -/
structure StorytellerProgressTracker where
  story_data : List (String × List (String × String))
  current_stage_index : Int
  current_phase_index : Int
deriving DecidableEq, Repr

/-- `reset`. -/
def StorytellerProgressTracker.reset ( tracker : StorytellerProgressTracker) :
    StorytellerProgressTracker :=
  ⟨[], 0, 0⟩

/-- `set_current_progress`: bounds-checked against the registry's
current stages; raises `ValueError` before any mutation, so the state
is returned unchanged alongside the error. -/
def StorytellerProgressTracker.set_current_progress
    (mgr : StorytellerStageManager) (t : StorytellerProgressTracker)
    (stage_index phase_index : Int) :
    Option String × StorytellerProgressTracker :=
  let stages := mgr.get_stages
  if h : stage_index < 0 ∨ (stages.length : Int) ≤ stage_index then
    (some ("Invalid stage_index: " ++ toString stage_index), t)
  else
    let current_stage := stages.get ⟨stage_index.toNat, by omega⟩
    if phase_index < 0 ∨ (current_stage.phases.length : Int) ≤ phase_index then
      (some ("Invalid phase_index: " ++ toString phase_index), t)
    else
      (none, { t with current_stage_index := stage_index,
                      current_phase_index := phase_index })

/-- The first mutation in `update_story_data`: `if stage_name not in
self.story_data: self.story_data[stage_name] = ` an empty dict. -/
def ensureStageEntry (t : StorytellerProgressTracker) (stage_name : String) :
    StorytellerProgressTracker :=
  if (dictGet t.story_data stage_name).isNone then
    { t with story_data := dictInsert t.story_data stage_name [] }
  else t

/-- `update_story_data`: validates the stage name; then — before
validating the phase name — ensures `story_data[stage_name]` exists,
inserting an empty dict; an invalid phase name raises after that
mutation; otherwise stores the content under the pair
(overwrite semantics). -/
def StorytellerProgressTracker.update_story_data
    (mgr : StorytellerStageManager) (t : StorytellerProgressTracker)
    (stage_name phase_name : String) (content : String) :
    Option String × StorytellerProgressTracker :=
  if mgr.is_valid_stage stage_name = false then
    (some ("Invalid stage name: " ++ stage_name), t)
  else
    let t1 := ensureStageEntry t stage_name
    match dictGet mgr.phase_name_to_index stage_name with
    | some pmap =>
      if (dictGet pmap phase_name).isNone then
        (some ("Invalid phase name: " ++ phase_name ++ " for stage: " ++
          stage_name), t1)
      else
        let cur := (dictGet t1.story_data stage_name).getD []
        (none, { t1 with story_data :=
          (dictInsert t1.story_data stage_name
            (dictInsert cur phase_name content)) })
    | none => (some ("KeyError: " ++ stage_name), t1)

/-! ## Plugin manager lookup (`storyteller_plugin_manager.py`) -/

/-- ASCII model of Python `str.lower()` applied to one character. -/
def lowerChar (c : Char) : Char :=
  if 'A' ≤ c ∧ c ≤ 'Z' then Char.ofNat (c.toNat + 32) else c

/-- ASCII model of Python `str.lower()` (plugin names in the sources
are ASCII). -/
def pyLower (s : String) : String := String.mk (s.data.map lowerChar)

/-- The plugin manager's loaded-plugin table: instances are opaque
identifiers keyed by the configuration's plugin names. -/
structure StorytellerPluginManager where
  plugins : List (String × Nat)
deriving DecidableEq, Repr

/-- `get_plugin`: lowercases the requested name, raises `PluginError`
exactly when the lowercased name is not a key of `self.plugins`. -/
def StorytellerPluginManager.get_plugin (pm : StorytellerPluginManager)
    (plugin_name : String) : Except String Nat :=
  let n := pyLower plugin_name
  match dictGet pm.plugins n with
  | some p => .ok p
  | none => .error ("Plugin not found or not enabled: " ++ n)

/-! ## Helpers and concrete fixtures used by the claim theorems -/

/-- Whether a call returned normally (`true`) or raised (`false`). -/
def exceptOk {ε α : Type} : Except ε α → Bool
  | .ok _ => true
  | .error _ => false

/-- `JsonOutputPlugin.extract_content` (string level). -/
def JsonOutputPlugin.extract_content (raw : String) : String :=
  String.mk (jsonExtractC raw.data)

/-- The loaded json plugin as the content processor drives it:
`process_wrapper` is `extract_content` followed by `process` (which
extracts again), parse failures are `ValueError`s, and `validate` is
`validate_content` against the current stage/phase schema resolved by
the plugin's schema fetcher. -/
def jsonPluginModel (currentSchema : Option String) : PluginModel :=
  { name := "json"
    format := "json"
    process_wrapper := fun c =>
      match JsonOutputPlugin.process (JsonOutputPlugin.extract_content c) with
      | .ok r => .ok r
      | .error m => .error (.valueError m)
    process := fun c =>
      match JsonOutputPlugin.process c with
      | .ok r => .ok r
      | .error m => .error (.valueError m)
    validate := fun c => .ok (JsonOutputPlugin.validate_content c currentSchema) }

/-- The loaded text plugin as the content processor drives it, holding
its parsed default schema. -/
def textPluginModel (parsedSchema : Option JVal) (currentSchema : Option String) :
    PluginModel :=
  { name := "text"
    format := "text"
    process_wrapper := fun c =>
      .ok (TextOutputPlugin.process (TextOutputPlugin.extract_content c))
    process := fun c => .ok (TextOutputPlugin.process c)
    validate := fun c =>
      TextOutputPlugin.validate_content parsedSchema c currentSchema }

theorem lowerChar_idem (c : Char) : lowerChar (lowerChar c) = lowerChar c := by
  unfold lowerChar
  by_cases h : 'A' ≤ c ∧ c ≤ 'Z'
  · rw [if_pos h]
    have h65 : 65 ≤ c.toNat := by
      have h1 := h.1
      rw [Char.le_def] at h1
      exact h1
    have h90 : c.toNat ≤ 90 := by
      have h2 := h.2
      rw [Char.le_def] at h2
      exact h2
    have hv : c.toNat + 32 < 55296 := by omega
    have ht : (Char.ofNat (c.toNat + 32)).toNat = c.toNat + 32 := by
      unfold Char.ofNat
      rw [dif_pos (Or.inl hv)]
      rfl
    rw [if_neg ?hno]
    case hno =>
      intro h'
      have h2 := h'.2
      rw [Char.le_def] at h2
      have h90' : (Char.ofNat (c.toNat + 32)).toNat ≤ 90 := h2
      omega
  · rw [if_neg h, if_neg h]

theorem pyLower_idem (s : String) : pyLower (pyLower s) = pyLower s := by
  show String.mk ((s.data.map lowerChar).map lowerChar) =
    String.mk (s.data.map lowerChar)
  rw [List.map_map, show lowerChar ∘ lowerChar = lowerChar from
    funext lowerChar_idem]

/-- C9: `get_plugin(n)` behaves exactly as `get_plugin(lower(n))`, and
it raises `PluginError` precisely when the lowercased name is not among
the loaded plugins. -/
theorem get_plugin_case_insensitive (pm : StorytellerPluginManager)
    (n : String) :
    pm.get_plugin n = pm.get_plugin (pyLower n) ∧
      (exceptOk (pm.get_plugin n) = false ↔
        dictGet pm.plugins (pyLower n) = none) := by
  constructor
  · unfold StorytellerPluginManager.get_plugin
    rw [pyLower_idem]
  · unfold StorytellerPluginManager.get_plugin
    cases hd : dictGet pm.plugins (pyLower n) <;> simp [exceptOk, hd]

/-- C1 counterexample: the text plugin called with an absent schema
argument and no parsed schema raises
`ValueError("No schema available for validation")` instead of
returning `true`. -/
theorem c1_text_validate_counterexample :
    TextOutputPlugin.validate_content none "sample content" none =
      Except.error (.valueError "No schema available for validation") := rfl

/-- C1 amended: with no schema, the json, subtext and list plugins'
`validate_content` returns `true` for every string content, but the
text plugin ignores the schema argument entirely and raises a
`ValueError` when it holds no parsed schema. -/
theorem validate_content_no_schema (content : String) :
    JsonOutputPlugin.validate_content content none = true ∧
    SubtextOutputPlugin.validate_content content none = true ∧
    ListOutputPlugin.validate_content content none = true ∧
    (∀ schemaArg : Option String,
      TextOutputPlugin.validate_content none content schemaArg =
        Except.error (.valueError "No schema available for validation")) := by
  refine ⟨rfl, rfl, ?_, fun _ => rfl⟩
  unfold ListOutputPlugin.validate_content
  cases h : splitNl (pyStrip content.data) with
  | nil => exact absurd h (splitNl_ne_nil _)
  | cons a as => simp [h]

/-- A well-formed JSON document (the start tag appears only as the
escaped `%%%`, so no extraction happens on first processing)
whose values spell out the extraction tags. -/
def jsonIdemX : String :=
  "\x7b\"a\": \"\\u0025%% JSON START %%%\", \"b\": \"%%% JSON END %%%\"\x7d"

/-- Its pretty-printed normalization, which contains the literal start
tag before the literal end tag. -/
def jsonIdemY : String :=
  "\x7b\n  \"a\": \"%%% JSON START %%%\",\n  \"b\": \"%%% JSON END %%%\"\n\x7d"

/-- C2 counterexample: `process` succeeds on `jsonIdemX`, producing
`jsonIdemY`, but re-processing `jsonIdemY` extracts the text between
the tags inside its string values and fails to parse it — so
`process(process(x)) ≠ process(x)` for the JSON plugin. -/
theorem c2_json_not_idempotent :
    JsonOutputPlugin.process jsonIdemX = Except.ok jsonIdemY ∧
      JsonOutputPlugin.process jsonIdemY =
        Except.error "Invalid JSON content: Invalid control character" :=
  ⟨rfl, rfl⟩

/-- C2 amended: `process(process(x)) = process(x)` holds for every
input for the text, list and subtext plugins (for the JSON plugin it
fails, see the counterexample). -/
theorem process_idempotent (x : String) :
    TextOutputPlugin.process (TextOutputPlugin.process x) =
      TextOutputPlugin.process x ∧
    ListOutputPlugin.process (ListOutputPlugin.process x) =
      ListOutputPlugin.process x ∧
    SubtextOutputPlugin.process (SubtextOutputPlugin.process x) =
      SubtextOutputPlugin.process x := by
  refine ⟨rfl, ?_, ?_⟩
  · show String.mk (listProcessC (String.mk (listProcessC x.data)).data) = _
    rw [show (String.mk (listProcessC x.data)).data = listProcessC x.data
      from rfl, listProcessC_idem]
    rfl
  · show String.mk (subtextProcessC (String.mk (subtextProcessC x.data)).data) = _
    rw [show (String.mk (subtextProcessC x.data)).data = subtextProcessC x.data
      from rfl, subtextProcessC_idem]
    rfl

/-- Whether the `(stage, phase)` name pair is present in the registry's
phase-name index. -/
def registryHasPair (mgr : StorytellerStageManager) (s p : String) : Bool :=
  match dictGet mgr.phase_name_to_index s with
  | some pmap => (dictGet pmap p).isSome
  | none => false

/-- The phase count of the stage at index `i`, `0` out of range. -/
def phaseCountAt (mgr : StorytellerStageManager) (i : Int) : Nat :=
  ((mgr.stages.get? i.toNat).map (fun st => st.phases.length)).getD 0

/-- A concrete registry: two enabled stages (one phase with a schema
file, one with an empty schema entry) and one disabled stage. -/
def mgrEx : StorytellerStageManager :=
  StorytellerStageManager.ofConfig
    [{ name := "STAGE_A", enabled := true,
       phases := [{ name := "P1", schema := none },
                  { name := "P2", schema := some "p2_schema.json" }] },
     { name := "STAGE_B", enabled := true,
       phases := [{ name := "Q1", schema := some "" }] },
     { name := "DISABLED", enabled := false, phases := [] }]

/-- C6 counterexample: `get_stage` with an out-of-range index and
`get_stage_by_name` with an unknown name return the sentinel `None`
instead of raising. -/
theorem c6_sentinel_counterexample :
    mgrEx.get_stage 5 = none ∧
      mgrEx.get_stage_by_name "MISSING" = none ∧
      ¬ (0 ≤ (5 : Int) ∧ (5 : Int) < (mgrEx.stages.length : Int)) := by
  refine ⟨by decide, by decide, by decide⟩

theorem get_phase_index_by_name_fails {mgr : StorytellerStageManager}
    {s p : String} (h : registryHasPair mgr s p = false) :
    exceptOk (mgr.get_phase_index_by_name s p) = false := by
  unfold registryHasPair at h
  unfold StorytellerStageManager.get_phase_index_by_name
  set o := dictGet mgr.phase_name_to_index s with ho
  clear_value o
  cases o with
  | none => rfl
  | some pmap =>
    dsimp only at h ⊢
    set o2 := dictGet pmap p with ho2
    clear_value o2
    cases o2 with
    | none => rfl
    | some i => simp at h

/-- C6 amended: `get_phase`, `get_stage_index_by_name` and
`get_phase_index_by_name` raise not-found errors for out-of-range
indices and unknown names, but `get_stage` and `get_stage_by_name`
return `None` instead of raising. -/
theorem registry_lookup_discipline :
    (∀ (mgr : StorytellerStageManager) (i : Int),
      ¬ (0 ≤ i ∧ i < (mgr.stages.length : Int)) → mgr.get_stage i = none) ∧
    (∀ (mgr : StorytellerStageManager) (i j : Int),
      ¬ (0 ≤ i ∧ i < (mgr.stages.length : Int)) →
      exceptOk (mgr.get_phase i j) = false) ∧
    (∀ (mgr : StorytellerStageManager) (i j : Int),
      (0 ≤ i ∧ i < (mgr.stages.length : Int)) →
      ¬ (0 ≤ j ∧ j < (phaseCountAt mgr i : Int)) →
      exceptOk (mgr.get_phase i j) = false) ∧
    (∀ (mgr : StorytellerStageManager) (n : String),
      dictGet mgr.stage_name_to_index n = none →
      exceptOk (mgr.get_stage_index_by_name n) = false ∧
      mgr.get_stage_by_name n = none) ∧
    (∀ (mgr : StorytellerStageManager) (s p : String),
      registryHasPair mgr s p = false →
      exceptOk (mgr.get_phase_index_by_name s p) = false) := by
  refine ⟨?_, ?_, ?_, ?_, ?_⟩
  · intro mgr i h
    unfold StorytellerStageManager.get_stage
    rw [if_neg h]
  · intro mgr i j h
    unfold StorytellerStageManager.get_phase
    rw [dif_neg h]
    rfl
  · intro mgr i j h1 h2
    unfold StorytellerStageManager.get_phase
    rw [dif_pos h1]
    have hbound : i.toNat < mgr.stages.length := by omega
    have hg : mgr.stages.get? i.toNat =
        some (mgr.stages.get ⟨i.toNat, hbound⟩) := List.get?_eq_get hbound
    have hcount : phaseCountAt mgr i =
        (mgr.stages.get ⟨i.toNat, hbound⟩).phases.length := by
      unfold phaseCountAt
      rw [hg]
      rfl
    rw [hcount] at h2
    rw [dif_neg h2]
    rfl
  · intro mgr n h
    constructor
    · unfold StorytellerStageManager.get_stage_index_by_name
      rw [h]
      rfl
    · unfold StorytellerStageManager.get_stage_by_name
      rw [h]
  · intro mgr s p h
    exact get_phase_index_by_name_fails h

theorem registry_lookup_discipline_witness :
    mgrEx.get_stage 5 = none ∧
    exceptOk (mgrEx.get_phase 5 0) = false ∧
    exceptOk (mgrEx.get_phase 0 7) = false ∧
    exceptOk (mgrEx.get_stage_index_by_name "MISSING") = false ∧
    mgrEx.get_stage_by_name "MISSING" = none ∧
    exceptOk (mgrEx.get_phase_index_by_name "STAGE_A" "NOPE") = false := by
  obtain ⟨h1, h2, h3, h4, h5⟩ := registry_lookup_discipline
  have h4' := h4 mgrEx "MISSING" (by decide)
  exact ⟨h1 mgrEx 5 (by decide), h2 mgrEx 5 0 (by decide),
    h3 mgrEx 0 7 (by decide) (by decide), h4'.1, h4'.2,
    h5 mgrEx "STAGE_A" "NOPE" (by decide)⟩

def trackerEmpty : StorytellerProgressTracker := ⟨[], 0, 0⟩

/-- C8 counterexample: with a valid stage name and an unknown phase
name, `update_story_data` raises — but only after inserting an empty
entry for the stage, so `story_data` is NOT left unchanged. -/
theorem c8_mutation_counterexample :
    ((StorytellerProgressTracker.update_story_data mgrEx trackerEmpty
      "STAGE_A" "NOPE" "content").1.isSome = true) ∧
    ((StorytellerProgressTracker.update_story_data mgrEx trackerEmpty
      "STAGE_A" "NOPE" "content").2 ≠ trackerEmpty) := by
  refine ⟨by decide, by decide⟩

/-- C8 amended: `set_current_progress` raises for out-of-range indices
and leaves the cursor unchanged; `update_story_data` raises for any
stage/phase name pair absent from the registry, leaving the state
unchanged when the stage name is unknown — but when the stage is known
and only the phase is unknown, it first ensures a (possibly empty)
`story_data` entry for the stage and raises after that mutation. -/
theorem progress_validation :
    (∀ (mgr : StorytellerStageManager) (t : StorytellerProgressTracker)
        (i j : Int),
      (i < 0 ∨ (mgr.get_stages.length : Int) ≤ i) →
      (StorytellerProgressTracker.set_current_progress mgr t i j).1.isSome
          = true ∧
        (StorytellerProgressTracker.set_current_progress mgr t i j).2 = t) ∧
    (∀ (mgr : StorytellerStageManager) (t : StorytellerProgressTracker)
        (i j : Int),
      ¬ (i < 0 ∨ (mgr.get_stages.length : Int) ≤ i) →
      (j < 0 ∨ (phaseCountAt mgr i : Int) ≤ j) →
      (StorytellerProgressTracker.set_current_progress mgr t i j).1.isSome
          = true ∧
        (StorytellerProgressTracker.set_current_progress mgr t i j).2 = t) ∧
    (∀ (mgr : StorytellerStageManager) (t : StorytellerProgressTracker)
        (s p c : String),
      mgr.is_valid_stage s = false →
      (StorytellerProgressTracker.update_story_data mgr t s p c).1.isSome
          = true ∧
        (StorytellerProgressTracker.update_story_data mgr t s p c).2 = t) ∧
    (∀ (mgr : StorytellerStageManager) (t : StorytellerProgressTracker)
        (s p c : String),
      mgr.is_valid_stage s = true →
      (∀ pmap, dictGet mgr.phase_name_to_index s = some pmap →
        dictGet pmap p = none) →
      (StorytellerProgressTracker.update_story_data mgr t s p c).1.isSome
          = true ∧
        (StorytellerProgressTracker.update_story_data mgr t s p c).2 =
          ensureStageEntry t s) := by
  refine ⟨?_, ?_, ?_, ?_⟩
  · intro mgr t i j h
    unfold StorytellerProgressTracker.set_current_progress
    rw [dif_pos h]
    exact ⟨rfl, rfl⟩
  · intro mgr t i j h1 h2
    unfold StorytellerProgressTracker.set_current_progress
    rw [dif_neg h1]
    have hbound : i.toNat < mgr.get_stages.length := by
      push_neg at h1
      omega
    have hg : mgr.get_stages.get? i.toNat =
        some (mgr.get_stages.get ⟨i.toNat, hbound⟩) := List.get?_eq_get hbound
    have hcount : phaseCountAt mgr i =
        (mgr.get_stages.get ⟨i.toNat, hbound⟩).phases.length := by
      unfold phaseCountAt
      rw [show mgr.stages.get? i.toNat = mgr.get_stages.get? i.toNat from rfl,
        hg]
      rfl
    rw [hcount] at h2
    rw [if_pos h2]
    exact ⟨rfl, rfl⟩
  · intro mgr t s p c h
    unfold StorytellerProgressTracker.update_story_data
    rw [h]
    exact ⟨rfl, rfl⟩
  · intro mgr t s p c h1 h2
    unfold StorytellerProgressTracker.update_story_data
    have hcond : ¬ (mgr.is_valid_stage s = false) := by
      rw [h1]
      simp
    rw [if_neg hcond]
    cases hd : dictGet mgr.phase_name_to_index s with
    | none => exact ⟨rfl, rfl⟩
    | some pmap =>
      have h3 := h2 pmap hd
      dsimp only
      rw [if_pos (by rw [h3]; rfl)]
      exact ⟨rfl, rfl⟩

theorem progress_validation_witness :
    ((StorytellerProgressTracker.set_current_progress mgrEx trackerEmpty 9
      0).1.isSome = true) ∧
    ((StorytellerProgressTracker.set_current_progress mgrEx trackerEmpty 9
      0).2 = trackerEmpty) ∧
    ((StorytellerProgressTracker.set_current_progress mgrEx trackerEmpty 0
      5).1.isSome = true) ∧
    ((StorytellerProgressTracker.set_current_progress mgrEx trackerEmpty 0
      5).2 = trackerEmpty) ∧
    ((StorytellerProgressTracker.update_story_data mgrEx trackerEmpty
      "GHOST" "P" "c").1.isSome = true) ∧
    ((StorytellerProgressTracker.update_story_data mgrEx trackerEmpty
      "GHOST" "P" "c").2 = trackerEmpty) ∧
    ((StorytellerProgressTracker.update_story_data mgrEx trackerEmpty
      "STAGE_A" "NOPE" "c").1.isSome = true) ∧
    ((StorytellerProgressTracker.update_story_data mgrEx trackerEmpty
      "STAGE_A" "NOPE" "c").2 = ensureStageEntry trackerEmpty "STAGE_A") := by
  obtain ⟨h1, h2, h3, h4⟩ := progress_validation
  have a1 := h1 mgrEx trackerEmpty 9 0 (by decide)
  have a2 := h2 mgrEx trackerEmpty 0 5 (by decide) (by decide)
  have a3 := h3 mgrEx trackerEmpty "GHOST" "P" "c" (by decide)
  have a4 := h4 mgrEx trackerEmpty "STAGE_A" "NOPE" "c" (by decide)
    (fun pmap hp => by
      have : pmap = phaseIndexMapOf
          { name := "STAGE_A", enabled := true,
            phases := [{ name := "P1", schema := none },
                       { name := "P2", schema := some "p2_schema.json" }] } := by
        have hd : dictGet mgrEx.phase_name_to_index "STAGE_A" =
            some (phaseIndexMapOf
              { name := "STAGE_A", enabled := true,
                phases := [{ name := "P1", schema := none },
                           { name := "P2", schema := some "p2_schema.json" }] }) := by
          decide
        rw [hd] at hp
        exact (Option.some.injEq _ _ ▸ hp).symm
      rw [this]
      decide)
  exact ⟨a1.1, a1.2, a2.1, a2.2, a3.1, a3.2, a4.1, a4.2⟩

/-- C10: for every stage/phase name pair absent from the registry,
`get_phase_schema` catches the lookup error and returns
`(False, None)` — exactly what a known phase with no configured schema
yields, so the two are indistinguishable from the result. -/
theorem get_phase_schema_no_raise :
    (∀ (mgr : StorytellerStageManager) (mp : Bool) (load : String → String)
        (s p : String),
      registryHasPair mgr s p = false →
      mgr.get_phase_schema mp load s p = .ok (false, none)) ∧
    (∀ (mgr : StorytellerStageManager) (load : String → String)
        (s p : String) (si pi : Nat) (ph : PhaseConfig),
      mgr.get_stage_index_by_name s = .ok si →
      mgr.get_phase_index_by_name s p = .ok pi →
      mgr.get_phase (si : Int) (pi : Int) = .ok ph →
      ph.schema = none →
      mgr.get_phase_schema true load s p = .ok (false, none)) := by
  constructor
  · intro mgr mp load s p h
    unfold StorytellerStageManager.get_phase_schema
    cases hs : mgr.get_stage_index_by_name s with
    | error e => rfl
    | ok si =>
      cases hp : mgr.get_phase_index_by_name s p with
      | error e => rfl
      | ok pi =>
        exfalso
        have hf := get_phase_index_by_name_fails h
        rw [hp] at hf
        simp [exceptOk] at hf
  · intro mgr load s p si pi ph h1 h2 h3 h4
    unfold StorytellerStageManager.get_phase_schema
    rw [h1]
    dsimp only
    rw [h2]
    dsimp only
    rw [h3]
    dsimp only
    rw [h4]
    rfl

theorem get_phase_schema_no_raise_witness :
    mgrEx.get_phase_schema false (fun f => "CONTENT OF " ++ f) "GHOST" "P"
        = .ok (false, none) ∧
      mgrEx.get_phase_schema true (fun f => "CONTENT OF " ++ f) "STAGE_A" "P1"
        = .ok (false, none) := by
  obtain ⟨h1, h2⟩ := get_phase_schema_no_raise
  exact ⟨h1 mgrEx false _ "GHOST" "P" (by decide),
    h2 mgrEx _ "STAGE_A" "P1" 0 0 { name := "P1", schema := none }
      rfl rfl rfl rfl⟩

theorem retry_content_generation_events (env : ProcEnv)
    (plugin : PluginModel) (pkt : StorytellerContentPacket) :
    ∀ r k,
      (∀ e ∈ (retry_content_generation env plugin pkt r k).2,
        e.isRetry = true) ∧
      (retry_content_generation env plugin pkt r k).2.length ≤ r := by
  intro r
  induction r with
  | zero =>
    intro k
    refine ⟨?_, ?_⟩
    · intro e he
      simp [retry_content_generation] at he
    · simp [retry_content_generation]
  | succ r ih =>
    intro k
    rw [retry_content_generation]
    by_cases hok : env.stageLookupOk
    · rw [if_pos hok]
      dsimp only
      cases hp : plugin.process (env.llm k) with
      | error e =>
        dsimp only
        refine ⟨?_, ?_⟩
        · intro e' he'
          rcases List.mem_cons.mp he' with h | h
          · subst h; rfl
          · exact (ih (k + 1)).1 e' h
        · simpa using (ih (k + 1)).2
      | ok processed =>
        dsimp only
        cases hv : plugin.validate processed with
        | error e2 =>
          dsimp only
          refine ⟨?_, ?_⟩
          · intro e' he'
            rcases List.mem_cons.mp he' with h | h
            · subst h; rfl
            · exact (ih (k + 1)).1 e' h
          · simpa using (ih (k + 1)).2
        | ok b =>
          cases b with
          | true =>
            dsimp only
            refine ⟨?_, by simp⟩
            intro e' he'
            rcases List.mem_cons.mp he' with h | h
            · subst h; rfl
            · simp at h
          | false =>
            dsimp only
            refine ⟨?_, ?_⟩
            · intro e' he'
              rcases List.mem_cons.mp he' with h | h
              · subst h; rfl
              · exact (ih (k + 1)).1 e' h
            · simpa using (ih (k + 1)).2
    · rw [if_neg hok]
      exact ⟨(ih k).1, le_trans (ih k).2 (Nat.le_succ r)⟩

theorem handle_invalid_tail_events (env : ProcEnv) (plugin : PluginModel)
    (pkt : StorytellerContentPacket) (k : Nat) (evs : List LlmEvent) :
    ∃ rets, (handle_invalid_tail env plugin pkt k evs).2 = evs ++ rets ∧
      (∀ e ∈ rets, e.isRetry = true) ∧ rets.length ≤ env.maxRetries := by
  unfold handle_invalid_tail
  by_cases hr : env.retryEnabled
  · rw [if_pos hr]
    exact ⟨(retry_content_generation env plugin pkt env.maxRetries k).2, rfl,
      (retry_content_generation_events env plugin pkt env.maxRetries k).1,
      (retry_content_generation_events env plugin pkt env.maxRetries k).2⟩
  · rw [if_neg hr]
    exact ⟨[], (List.append_nil evs).symm, by simp, Nat.zero_le _⟩

theorem handle_invalid_content_events (env : ProcEnv) (plugin : PluginModel)
    (pkt : StorytellerContentPacket) :
    ∃ reps rets,
      (handle_invalid_content env plugin pkt).2 = reps ++ rets ∧
      (∀ e ∈ reps, e.isRepair = true) ∧ (∀ e ∈ rets, e.isRetry = true) ∧
      reps.length ≤ 1 ∧ rets.length ≤ env.maxRetries := by
  unfold handle_invalid_content
  by_cases hr : env.repairEnabled
  · rw [if_pos hr]
    dsimp only
    cases ha : attempt_repair env 0 pkt.content plugin.name pkt.stage_name
        pkt.phase_name with
    | error e =>
      cases e with
      | valueError m =>
        dsimp only
        obtain ⟨rets, h1, h2, h3⟩ := handle_invalid_tail_events env plugin pkt 1
          [LlmEvent.repairCall (generate_repair_prompt pkt.content plugin.name
            pkt.stage_name pkt.phase_name)]
        refine ⟨[LlmEvent.repairCall (generate_repair_prompt pkt.content
          plugin.name pkt.stage_name pkt.phase_name)], rets, h1, ?_, h2,
          by simp, h3⟩
        intro e' he'
        rcases List.mem_cons.mp he' with h | h
        · subst h; rfl
        · simp at h
      | typeError m =>
        dsimp only
        refine ⟨[LlmEvent.repairCall (generate_repair_prompt pkt.content
          plugin.name pkt.stage_name pkt.phase_name)], [], by simp, ?_,
          by simp, by simp, Nat.zero_le _⟩
        intro e' he'
        rcases List.mem_cons.mp he' with h | h
        · subst h; rfl
        · simp at h
      | attributeError m =>
        dsimp only
        refine ⟨[LlmEvent.repairCall (generate_repair_prompt pkt.content
          plugin.name pkt.stage_name pkt.phase_name)], [], by simp, ?_,
          by simp, by simp, Nat.zero_le _⟩
        intro e' he'
        rcases List.mem_cons.mp he' with h | h
        · subst h; rfl
        · simp at h
      | keyError m =>
        dsimp only
        refine ⟨[LlmEvent.repairCall (generate_repair_prompt pkt.content
          plugin.name pkt.stage_name pkt.phase_name)], [], by simp, ?_,
          by simp, by simp, Nat.zero_le _⟩
        intro e' he'
        rcases List.mem_cons.mp he' with h | h
        · subst h; rfl
        · simp at h
    | ok repaired =>
      dsimp only
      cases hv : plugin.validate repaired with
      | ok b =>
        cases b with
        | true =>
          dsimp only
          refine ⟨[LlmEvent.repairCall (generate_repair_prompt pkt.content
            plugin.name pkt.stage_name pkt.phase_name)], [], by simp, ?_,
            by simp, by simp, Nat.zero_le _⟩
          intro e' he'
          rcases List.mem_cons.mp he' with h | h
          · subst h; rfl
          · simp at h
        | false =>
          dsimp only
          obtain ⟨rets, h1, h2, h3⟩ := handle_invalid_tail_events env plugin
            pkt 1 [LlmEvent.repairCall (generate_repair_prompt pkt.content
              plugin.name pkt.stage_name pkt.phase_name)]
          refine ⟨[LlmEvent.repairCall (generate_repair_prompt pkt.content
            plugin.name pkt.stage_name pkt.phase_name)], rets, h1, ?_, h2,
            by simp, h3⟩
          intro e' he'
          rcases List.mem_cons.mp he' with h | h
          · subst h; rfl
          · simp at h
      | error e =>
        cases e with
        | valueError m =>
          dsimp only
          obtain ⟨rets, h1, h2, h3⟩ := handle_invalid_tail_events env plugin
            pkt 1 [LlmEvent.repairCall (generate_repair_prompt pkt.content
              plugin.name pkt.stage_name pkt.phase_name)]
          refine ⟨[LlmEvent.repairCall (generate_repair_prompt pkt.content
            plugin.name pkt.stage_name pkt.phase_name)], rets, h1, ?_, h2,
            by simp, h3⟩
          intro e' he'
          rcases List.mem_cons.mp he' with h | h
          · subst h; rfl
          · simp at h
        | typeError m =>
          dsimp only
          refine ⟨[LlmEvent.repairCall (generate_repair_prompt pkt.content
            plugin.name pkt.stage_name pkt.phase_name)], [], by simp, ?_,
            by simp, by simp, Nat.zero_le _⟩
          intro e' he'
          rcases List.mem_cons.mp he' with h | h
          · subst h; rfl
          · simp at h
        | attributeError m =>
          dsimp only
          refine ⟨[LlmEvent.repairCall (generate_repair_prompt pkt.content
            plugin.name pkt.stage_name pkt.phase_name)], [], by simp, ?_,
            by simp, by simp, Nat.zero_le _⟩
          intro e' he'
          rcases List.mem_cons.mp he' with h | h
          · subst h; rfl
          · simp at h
        | keyError m =>
          dsimp only
          refine ⟨[LlmEvent.repairCall (generate_repair_prompt pkt.content
            plugin.name pkt.stage_name pkt.phase_name)], [], by simp, ?_,
            by simp, by simp, Nat.zero_le _⟩
          intro e' he'
          rcases List.mem_cons.mp he' with h | h
          · subst h; rfl
          · simp at h
  · rw [if_neg hr]
    obtain ⟨rets, h1, h2, h3⟩ := handle_invalid_tail_events env plugin pkt 0 []
    exact ⟨[], rets, h1, by simp, h2, by simp, h3⟩

/-- C3: on every run of the default strategy, the model-call trace is
(at most one) repair call followed by retry calls only — repair happens
at most once per invalid packet and always before any retry — and the
number of retry calls never exceeds the configured `max_retries`. -/
theorem repair_retry_discipline (env : ProcEnv) (plugin : PluginModel)
    (pkt : StorytellerContentPacket) :
    ∃ reps rets,
      (DefaultContentProcessingStrategy.process env plugin pkt).2 =
        reps ++ rets ∧
      (∀ e ∈ reps, e.isRepair = true) ∧ (∀ e ∈ rets, e.isRetry = true) ∧
      reps.length ≤ 1 ∧ rets.length ≤ env.maxRetries := by
  unfold DefaultContentProcessingStrategy.process
  cases hw : plugin.process_wrapper pkt.content with
  | error e => exact ⟨[], [], rfl, by simp, by simp, by simp, Nat.zero_le _⟩
  | ok processed =>
    dsimp only
    by_cases hs : pyTruthy env.schema
    · rw [if_pos hs]
      cases hv : plugin.validate processed with
      | error e =>
        exact ⟨[], [], rfl, by simp, by simp, by simp, Nat.zero_le _⟩
      | ok b =>
        cases b with
        | true => exact ⟨[], [], rfl, by simp, by simp, by simp, Nat.zero_le _⟩
        | false =>
          dsimp only
          obtain ⟨reps, rets, h1, h2, h3, h4, h5⟩ :=
            handle_invalid_content_events env plugin
              { pkt with content := processed }
          exact ⟨reps, rets, h1, h2, h3, h4, h5⟩
    · rw [if_neg hs]
      exact ⟨[], [], rfl, by simp, by simp, by simp, Nat.zero_le _⟩

/-- C4: when `plugin.process` raises a format error, the strategy never
enters the repair or retry path — the exception is caught, wrapped by
`handle_processing_error` and raised immediately as a
content-processing error, with no model call made. -/
theorem format_error_fatal (env : ProcEnv) (plugin : PluginModel)
    (pkt : StorytellerContentPacket) (e : PyErr)
    (h : plugin.process_wrapper pkt.content = Except.error e) :
    DefaultContentProcessingStrategy.process env plugin pkt =
      (.error (.halted (haltMsg pkt.plugin_name pkt.stage_name
        pkt.phase_name e)), []) := by
  unfold DefaultContentProcessingStrategy.process
  rw [h]

def c4Env : ProcEnv :=
  { schema := some "\x7b\"type\": \"object\"\x7d", repairEnabled := true,
    retryEnabled := true, maxRetries := 3, stageLookupOk := true,
    llm := fun _ => "NEVER USED" }

def c4Pkt : StorytellerContentPacket :=
  { content := "this is not json", prompt := "PROMPT", plugin_name := "json",
    stage_name := "S1", phase_name := "PH1" }

theorem format_error_fatal_witness :
    DefaultContentProcessingStrategy.process c4Env
        (jsonPluginModel (some "\x7b\"type\": \"object\"\x7d")) c4Pkt =
      (.error (.halted (haltMsg "json" "S1" "PH1"
        (.valueError "Invalid JSON content: Expecting value"))), []) :=
  format_error_fatal c4Env (jsonPluginModel (some "\x7b\"type\": \"object\"\x7d"))
    c4Pkt (.valueError "Invalid JSON content: Expecting value") rfl

/-- C5: every model call made by `retry_content_generation` passes
`content_packet.content` — the current (invalid, processed) content —
as the generation prompt, not the original prompt stored in the
packet's metadata. -/
theorem retry_uses_packet_content (env : ProcEnv) (plugin : PluginModel)
    (pkt : StorytellerContentPacket) (r k : Nat) (p : String)
    (h : LlmEvent.retryCall p ∈
      (retry_content_generation env plugin pkt r k).2) :
    p = pkt.content := by
  induction r generalizing k with
  | zero => simp [retry_content_generation] at h
  | succ r ih =>
    rw [retry_content_generation] at h
    by_cases hok : env.stageLookupOk
    · rw [if_pos hok] at h
      dsimp only at h
      set o := plugin.process (env.llm k) with ho
      clear_value o
      cases o with
      | error e =>
        dsimp only at h
        rcases List.mem_cons.mp h with h2 | h2
        · exact (LlmEvent.retryCall.injEq _ _).mp h2
        · exact ih (k + 1) h2
      | ok processed =>
        dsimp only at h
        set o2 := plugin.validate processed with ho2
        clear_value o2
        cases o2 with
        | error e =>
          dsimp only at h
          rcases List.mem_cons.mp h with h2 | h2
          · exact (LlmEvent.retryCall.injEq _ _).mp h2
          · exact ih (k + 1) h2
        | ok b =>
          cases b with
          | true =>
            dsimp only at h
            rcases List.mem_cons.mp h with h2 | h2
            · exact (LlmEvent.retryCall.injEq _ _).mp h2
            · simp at h2
          | false =>
            dsimp only at h
            rcases List.mem_cons.mp h with h2 | h2
            · exact (LlmEvent.retryCall.injEq _ _).mp h2
            · exact ih (k + 1) h2
    · rw [if_neg hok] at h
      exact ih k h

/-- The text plugin's parsed default schema requiring ten characters
(`{"minLength": 10}` as parsed JSON). -/
def textMinLen10 : JVal := .jobj [("minLength".data, .jint 10)]

def c5Env : ProcEnv :=
  { schema := some "\x7b\"type\": \"string\", \"minLength\": 10\x7d",
    repairEnabled := false, retryEnabled := true, maxRetries := 2,
    stageLookupOk := true, llm := fun _ => "short" }

def c5Pkt : StorytellerContentPacket :=
  { content := "INVALID PROCESSED CONTENT",
    prompt := "THE ORIGINAL GENERATION PROMPT", plugin_name := "text",
    stage_name := "S", phase_name := "P" }

theorem retry_uses_packet_content_witness :
    "INVALID PROCESSED CONTENT" = c5Pkt.content ∧
      c5Pkt.prompt ≠ c5Pkt.content :=
  ⟨retry_uses_packet_content c5Env (textPluginModel (some textMinLen10) none)
      c5Pkt 2 0 "INVALID PROCESSED CONTENT" (by decide),
    by decide⟩

def c7Env : ProcEnv :=
  { schema := some "\x7b\"type\": \"string\", \"minLength\": 10\x7d",
    repairEnabled := false, retryEnabled := false, maxRetries := 3,
    stageLookupOk := true, llm := fun _ => "SHOULD NOT BE CALLED" }

def c7Pkt : StorytellerContentPacket :=
  { content := "abcde", prompt := "PROMPT", plugin_name := "text",
    stage_name := "STAGE", phase_name := "PHASE" }

/-- C7 counterexample: in scenario B (text phase, `minLength=10`,
repair and retry disabled, five characters of content) `process_content`
does NOT return `(packet, false)` — `handle_invalid_content` raises the
content-processing error directly, before `process_content` can return;
the empty trace confirms no model call beyond the original
generation. -/
theorem c7_raises_counterexample :
    process_content c7Env (textPluginModel (some textMinLen10) none) c7Pkt =
      (.error (.processingFailed "Failed to process content for STAGE_PHASE"),
        []) := rfl

/-- C7 amended: with a resolved schema, repair and retry both disabled,
and processed content that fails validation, `process_content` raises a
content-processing error (rather than returning `(packet, false)`) and
makes no model call. -/
theorem no_flags_invalid_raises (env : ProcEnv) (plugin : PluginModel)
    (pkt : StorytellerContentPacket) (processed : String)
    (hr : env.repairEnabled = false) (ht : env.retryEnabled = false)
    (hs : pyTruthy env.schema = true)
    (hp : plugin.process_wrapper pkt.content = .ok processed)
    (hv : plugin.validate processed = .ok false) :
    process_content env plugin pkt =
      (.error (.processingFailed ("Failed to process content for " ++
        pkt.stage_name ++ "_" ++ pkt.phase_name)), []) := by
  unfold process_content DefaultContentProcessingStrategy.process
  rw [hp]
  dsimp only
  rw [if_pos hs, hv]
  dsimp only
  unfold handle_invalid_content handle_invalid_tail
  rw [hr, ht]
  rfl

theorem no_flags_invalid_raises_witness :
    process_content c7Env (textPluginModel (some textMinLen10) none) c7Pkt =
      (.error (.processingFailed "Failed to process content for STAGE_PHASE"),
        []) :=
  no_flags_invalid_raises c7Env (textPluginModel (some textMinLen10) none)
    c7Pkt "abcde" rfl rfl rfl rfl rfl
